import Mathlib

/-!
Shallow embedding of the SoapTools numerical core
(`src/utils/math/sparse_ops.py`, `src/utils/math/solvers/solvers.py`,
`src/utils/math/solvers/manager.py`, `src/utils/math/problems.py`,
`src/utils/singleton.py`) over exact rationals.

Conventions:
* torch float scalars are modelled by `ℚ`;
* `torch.norm v` (the 2-norm, a float `sqrt`) is modelled by an explicit
  square-root oracle `msqrt : ℚ → ℚ` applied to the exact sum of squares;
  theorems quantify over the oracle, concrete runs use `ratSqrt`;
* sparse COO tensors are modelled by a shape plus a list of
  `(row, col, value)` triples; `coalesce`/densification is the function
  `SparseCOO.toDense` summing all triples at a position;
* dense matrices/vectors in the solver family are `Matrix (Fin n) (Fin n) ℚ`
  and `Fin n → ℚ`.
-/

namespace SoapTools

/-- Rational square-root approximation standing in for the float `sqrt`
used by `torch.norm` in concrete evaluations: `sqrt (a/b) = sqrt (a*b) / b`,
with `Nat.sqrt` on the numerator. Exact on squares of naturals. -/
def ratSqrt (q : ℚ) : ℚ := (Nat.sqrt (q.num.toNat * q.den) : ℚ) / (q.den : ℚ)

/-- 3-component vector of rationals (one row of a `(k,3)` torch tensor). -/
structure Vec3 where
  x : ℚ
  y : ℚ
  z : ℚ
deriving DecidableEq

namespace Vec3

/-- Componentwise subtraction of 3-vectors (`vj - vi` on `(m,3)` tensors). -/
def sub (a b : Vec3) : Vec3 := ⟨a.x - b.x, a.y - b.y, a.z - b.z⟩

/-- `(a * b).sum(axis=1)`: the euclidean dot product of two rows. -/
def dot (a b : Vec3) : ℚ := a.x * b.x + a.y * b.y + a.z * b.z

/-- `torch.cross` on rows of `(m,3)` tensors. -/
def cross (a b : Vec3) : Vec3 :=
  ⟨a.y * b.z - a.z * b.y, a.z * b.x - a.x * b.z, a.x * b.y - a.y * b.x⟩

/-- Squared euclidean norm; `torch.norm a = msqrt (a.normSq)`. -/
def normSq (a : Vec3) : ℚ := a.x * a.x + a.y * a.y + a.z * a.z

end Vec3

/-- Sparse COO matrix: shape plus `(row, col, value)` triples
(`torch.sparse_coo_tensor(torch.stack([I, J]), W, (rows, cols))`).
Duplicate positions are implicitly summed, as `coalesce` does. -/
structure SparseCOO where
  rows : ℕ
  cols : ℕ
  entries : List (ℕ × ℕ × ℚ)
deriving DecidableEq

/-- Total value stored at position `(r, c)`: the sum of all COO triples with
that index pair.  This is the dense reading of a (possibly uncoalesced)
sparse tensor. -/
def entryVal (es : List (ℕ × ℕ × ℚ)) (r c : ℕ) : ℚ :=
  es.foldr (fun e acc => (if e.1 = r ∧ e.2.1 = c then e.2.2 else 0) + acc) 0

/-- Dense reading of a `SparseCOO`. -/
def SparseCOO.toDense (A : SparseCOO) (r c : ℕ) : ℚ := entryVal A.entries r c

theorem entryVal_nil (r c : ℕ) : entryVal [] r c = 0 := rfl

theorem entryVal_cons (e : ℕ × ℕ × ℚ) (es : List (ℕ × ℕ × ℚ)) (r c : ℕ) :
    entryVal (e :: es) r c =
      (if e.1 = r ∧ e.2.1 = c then e.2.2 else 0) + entryVal es r c := rfl

theorem entryVal_append (as bs : List (ℕ × ℕ × ℚ)) (r c : ℕ) :
    entryVal (as ++ bs) r c = entryVal as r c + entryVal bs r c := by
  induction as with
  | nil => simp [entryVal_nil, entryVal]
  | cons a as ih => simp only [List.cons_append, entryVal_cons, ih]; ring

/-- `scatter_add(0, I, W)` at index `r`: the sum of the values of all triples
whose row index is `r` (the per-row weight total used for the diagonal). -/
def scatterDiag (es : List (ℕ × ℕ × ℚ)) (r : ℕ) : ℚ :=
  es.foldr (fun e acc => (if e.1 = r then e.2.2 else 0) + acc) 0

theorem scatterDiag_nil (r : ℕ) : scatterDiag [] r = 0 := rfl

theorem scatterDiag_cons (e : ℕ × ℕ × ℚ) (es : List (ℕ × ℕ × ℚ)) (r : ℕ) :
    scatterDiag (e :: es) r = (if e.1 = r then e.2.2 else 0) + scatterDiag es r := rfl

theorem scatterDiag_append (as bs : List (ℕ × ℕ × ℚ)) (r : ℕ) :
    scatterDiag (as ++ bs) r = scatterDiag as r + scatterDiag bs r := by
  induction as with
  | nil => simp [scatterDiag]
  | cons a as ih => simp only [List.cons_append, scatterDiag_cons, ih]; ring

/-- One interior-angle cotangent with the degenerate-triangle guard:
`(u * v).sum(axis=1) / (torch.norm(torch.cross(u, v), dim=1) + eps)`. -/
def cotangent (msqrt : ℚ → ℚ) (eps : ℚ) (u v : Vec3) : ℚ :=
  Vec3.dot u v / (msqrt (Vec3.normSq (Vec3.cross u v)) + eps)

/-- The six off-diagonal COO triples contributed by one face `(i,j,k)`:
the `W`/`I`/`J` concatenation of `sparse_cotan_laplacian` restricted to one
face, with the `* 0.5` folded in. -/
def faceEntries (msqrt : ℚ → ℚ) (eps : ℚ) (V : ℕ → Vec3) (f : ℕ × ℕ × ℕ) :
    List (ℕ × ℕ × ℚ) :=
  let i := f.1; let j := f.2.1; let k := f.2.2
  let vi := V i; let vj := V j; let vk := V k
  let v_ji := Vec3.sub vj vi
  let v_ki := Vec3.sub vk vi
  let v_ij := Vec3.sub vi vj
  let v_kj := Vec3.sub vk vj
  let v_ik := Vec3.sub vi vk
  let v_jk := Vec3.sub vj vk
  let cot_i := cotangent msqrt eps v_ji v_ki
  let cot_j := cotangent msqrt eps v_ij v_kj
  let cot_k := cotangent msqrt eps v_ik v_jk
  [(j, k, cot_i * (1/2)), (k, j, cot_i * (1/2)),
   (k, i, cot_j * (1/2)), (i, k, cot_j * (1/2)),
   (i, j, cot_k * (1/2)), (j, i, cot_k * (1/2))]

/-- All off-diagonal COO triples of the cotangent Laplacian
(the tensor `L` before the diagonal `M` is subtracted). -/
def cotanOffEntries (msqrt : ℚ → ℚ) (eps : ℚ) (V : ℕ → Vec3)
    (F : List (ℕ × ℕ × ℕ)) : List (ℕ × ℕ × ℚ) :=
  F.flatMap (faceEntries msqrt eps V)

/-- `sparse_cotan_laplacian(V, F, eps)`: off-diagonal half-cotangent weights
`L` minus the diagonal matrix `M` whose entry `(r,r)` is the scatter-added
row total of the off-diagonal weights; returned as one COO tensor `L - M`. -/
def sparse_cotan_laplacian (n : ℕ) (msqrt : ℚ → ℚ) (eps : ℚ) (V : ℕ → Vec3)
    (F : List (ℕ × ℕ × ℕ)) : SparseCOO :=
  let off := cotanOffEntries msqrt eps V F
  ⟨n, n, off ++ (List.range n).map (fun r => (r, r, -(scatterDiag off r)))⟩

theorem ite_and_comm (p q : Prop) [Decidable p] [Decidable q] (w : ℚ) :
    (if p ∧ q then w else 0) = (if q ∧ p then w else 0) :=
  if_congr and_comm rfl rfl

theorem entryVal_faceEntries_symm (msqrt : ℚ → ℚ) (eps : ℚ) (V : ℕ → Vec3)
    (f : ℕ × ℕ × ℕ) (r c : ℕ) :
    entryVal (faceEntries msqrt eps V f) r c =
      entryVal (faceEntries msqrt eps V f) c r := by
  simp only [faceEntries, entryVal_cons, entryVal_nil]
  rw [ite_and_comm (f.2.1 = c) (f.2.2 = r), ite_and_comm (f.2.2 = c) (f.2.1 = r),
      ite_and_comm (f.2.2 = c) (f.1 = r), ite_and_comm (f.1 = c) (f.2.2 = r),
      ite_and_comm (f.1 = c) (f.2.1 = r), ite_and_comm (f.2.1 = c) (f.1 = r)]
  ring

theorem entryVal_cotanOffEntries_symm (msqrt : ℚ → ℚ) (eps : ℚ) (V : ℕ → Vec3)
    (F : List (ℕ × ℕ × ℕ)) (r c : ℕ) :
    entryVal (cotanOffEntries msqrt eps V F) r c =
      entryVal (cotanOffEntries msqrt eps V F) c r := by
  induction F with
  | nil => rfl
  | cons f F ih =>
      simp only [cotanOffEntries, List.flatMap_cons, entryVal_append] at *
      rw [entryVal_faceEntries_symm, ih]

/-- Summing one row of the dense reading over all columns below `n` recovers
the scatter-added row total, provided every column index is below `n`. -/
theorem sum_entryVal_row (es : List (ℕ × ℕ × ℚ)) (n r : ℕ)
    (hc : ∀ e ∈ es, e.2.1 < n) :
    ((Finset.range n).sum (fun c => entryVal es r c)) = scatterDiag es r := by
  induction es with
  | nil => simp [entryVal_nil, scatterDiag_nil]
  | cons e es ih =>
      have hcol : e.2.1 < n := hc e (List.mem_cons_self e es)
      have ihs := ih (fun x hx => hc x (List.mem_cons_of_mem e hx))
      simp only [entryVal_cons, scatterDiag_cons, Finset.sum_add_distrib, ihs]
      congr 1
      by_cases hr : e.1 = r
      · simp only [hr, true_and, if_pos]
        rw [Finset.sum_ite_eq (Finset.range n) e.2.1 (fun _ => e.2.2)]
        simp [Finset.mem_range.mpr hcol]
      · simp [hr]

/-- The diagonal COO triples: value at `(r,c)` is the negated row total when
`r = c < n`, and `0` otherwise. -/
theorem entryVal_diagEntries (g : ℕ → ℚ) (n r c : ℕ) :
    entryVal ((List.range n).map (fun r => (r, r, g r))) r c =
      if r = c ∧ r < n then g r else 0 := by
  induction n with
  | zero => simp [entryVal_nil]
  | succ m ih =>
      rw [List.range_succ, List.map_append, entryVal_append, ih]
      simp only [List.map_cons, List.map_nil, entryVal_cons, entryVal_nil]
      by_cases hrc : r = c
      · subst hrc
        by_cases hrm : r < m
        · have : ¬ (m = r) := by omega
          simp [hrm, this, Nat.lt_succ_of_lt hrm]
        · by_cases hre : m = r
          · subst hre
            simp [hrm, Nat.lt_succ_self]
          · have : ¬ r < m + 1 := by omega
            simp [hrm, hre, this]
      · have h1 : ¬ (m = r ∧ m = c) := fun h => hrc (h.1 ▸ h.2)
        simp [hrc, h1]

theorem scatterDiag_diagEntries (g : ℕ → ℚ) (n r : ℕ) :
    scatterDiag ((List.range n).map (fun r => (r, r, g r))) r =
      if r < n then g r else 0 := by
  induction n with
  | zero => simp [scatterDiag_nil]
  | succ m ih =>
      rw [List.range_succ, List.map_append, scatterDiag_append, ih]
      simp only [List.map_cons, List.map_nil, scatterDiag_cons, scatterDiag_nil]
      by_cases hrm : r < m
      · have : ¬ (m = r) := by omega
        simp [hrm, this, Nat.lt_succ_of_lt hrm]
      · by_cases hre : m = r
        · subst hre
          simp [hrm, Nat.lt_succ_self]
        · have : ¬ r < m + 1 := by omega
          simp [hrm, hre, this]

/-- Column indices of the off-diagonal triples all come from face indices. -/
theorem cotanOffEntries_col_lt (msqrt : ℚ → ℚ) (eps : ℚ) (V : ℕ → Vec3)
    (F : List (ℕ × ℕ × ℕ)) (n : ℕ)
    (hF : ∀ f ∈ F, f.1 < n ∧ f.2.1 < n ∧ f.2.2 < n) :
    ∀ e ∈ cotanOffEntries msqrt eps V F, e.2.1 < n := by
  intro e he
  simp only [cotanOffEntries, List.mem_flatMap] at he
  obtain ⟨f, hf, hef⟩ := he
  obtain ⟨h1, h2, h3⟩ := hF f hf
  simp only [faceEntries, List.mem_cons, List.not_mem_nil, or_false] at hef
  rcases hef with h | h | h | h | h | h <;> subst h <;> simpa

/-- Claim C1: for every vertex array `V`, face array `F` with indices below
`n`, any square-root model and any epsilon, `sparse_cotan_laplacian` returns
an `n × n` sparse matrix that is symmetric (entry `(i,j)` equals entry
`(j,i)`) and whose every row sums to zero — exactly in rational arithmetic,
hence within any floating-point tolerance, including for degenerate
(zero-area or collinear) triangles, where the epsilon keeps the cotangent
denominators finite. -/
theorem claim_C1_laplacian_symm_rowsum (n : ℕ) (msqrt : ℚ → ℚ) (eps : ℚ)
    (V : ℕ → Vec3) (F : List (ℕ × ℕ × ℕ))
    (hF : ∀ f ∈ F, f.1 < n ∧ f.2.1 < n ∧ f.2.2 < n) :
    (sparse_cotan_laplacian n msqrt eps V F).rows = n ∧
    (sparse_cotan_laplacian n msqrt eps V F).cols = n ∧
    (∀ r c, (sparse_cotan_laplacian n msqrt eps V F).toDense r c =
            (sparse_cotan_laplacian n msqrt eps V F).toDense c r) ∧
    (∀ r, r < n →
      (Finset.range n).sum
        (fun c => (sparse_cotan_laplacian n msqrt eps V F).toDense r c) = 0) := by
  refine ⟨rfl, rfl, ?_, ?_⟩
  · intro r c
    simp only [sparse_cotan_laplacian, SparseCOO.toDense, entryVal_append,
      entryVal_diagEntries]
    rw [entryVal_cotanOffEntries_symm]
    congr 1
    by_cases hrc : r = c
    · subst hrc; rfl
    · have hcr : ¬ (c = r) := fun h => hrc h.symm
      simp [hrc, hcr]
  · intro r hr
    have hcols : ∀ e ∈ (cotanOffEntries msqrt eps V F ++
        (List.range n).map
          (fun s => (s, s, -(scatterDiag (cotanOffEntries msqrt eps V F) s)))),
        e.2.1 < n := by
      intro e he
      rcases List.mem_append.mp he with h | h
      · exact cotanOffEntries_col_lt msqrt eps V F n hF e h
      · obtain ⟨s, hs, rfl⟩ := List.mem_map.mp h
        simpa using List.mem_range.mp hs
    simp only [sparse_cotan_laplacian, SparseCOO.toDense]
    rw [sum_entryVal_row _ n r hcols, scatterDiag_append,
      scatterDiag_diagEntries, if_pos hr]
    ring

/-- Witness for C1 at a degenerate (collinear) one-triangle mesh with the
concrete rational square root and `eps = 1e-8`. -/
theorem claim_C1_witness :
    (∀ f ∈ [((0 : ℕ), (1 : ℕ), (2 : ℕ))], f.1 < 3 ∧ f.2.1 < 3 ∧ f.2.2 < 3) ∧
    ((sparse_cotan_laplacian 3 ratSqrt (1 / 100000000)
        (fun v => if v = 0 then ⟨0, 0, 0⟩ else if v = 1 then ⟨1, 0, 0⟩
                  else ⟨2, 0, 0⟩) [(0, 1, 2)]).rows = 3 ∧
     (sparse_cotan_laplacian 3 ratSqrt (1 / 100000000)
        (fun v => if v = 0 then ⟨0, 0, 0⟩ else if v = 1 then ⟨1, 0, 0⟩
                  else ⟨2, 0, 0⟩) [(0, 1, 2)]).cols = 3 ∧
     (∀ r c, (sparse_cotan_laplacian 3 ratSqrt (1 / 100000000)
        (fun v => if v = 0 then ⟨0, 0, 0⟩ else if v = 1 then ⟨1, 0, 0⟩
                  else ⟨2, 0, 0⟩) [(0, 1, 2)]).toDense r c =
             (sparse_cotan_laplacian 3 ratSqrt (1 / 100000000)
        (fun v => if v = 0 then ⟨0, 0, 0⟩ else if v = 1 then ⟨1, 0, 0⟩
                  else ⟨2, 0, 0⟩) [(0, 1, 2)]).toDense c r) ∧
     (∀ r, r < 3 →
       (Finset.range 3).sum
         (fun c => (sparse_cotan_laplacian 3 ratSqrt (1 / 100000000)
        (fun v => if v = 0 then ⟨0, 0, 0⟩ else if v = 1 then ⟨1, 0, 0⟩
                  else ⟨2, 0, 0⟩) [(0, 1, 2)]).toDense r c) = 0)) :=
  ⟨by decide, claim_C1_laplacian_symm_rowsum 3 ratSqrt (1 / 100000000) _ _
    (by decide)⟩

/-! ## Solver family (`src/utils/math/solvers/solvers.py`) -/

/-- Vectors handled by the solver family (1-D torch tensors of length `n`). -/
abbrev QVec (n : ℕ) := Fin n → ℚ

/-- Dense reading of the system matrix handed to a solver. -/
abbrev QMat (n : ℕ) := Matrix (Fin n) (Fin n) ℚ

/-- `dense_ops.batched_dot(a, b) = torch.sum(a * b, dim=-1)` on 1-D tensors. -/
def batched_dot {n : ℕ} (a b : QVec n) : ℚ := Finset.univ.sum (fun i => a i * b i)

/-- Python exception kinds that the solving code can raise. -/
inductive PyErr where
  | typeError
  | valueError
  | nameError
  | runtimeError
deriving DecidableEq

/-- A preconditioner: `setup(A, b) -> (A', b')` done once and
`apply(A, r) -> (A', z)` done per iteration (`preconds.Preconditioner`). -/
structure Precond (n : ℕ) where
  setupFn : QMat n × QVec n → QMat n × QVec n
  applyFn : QMat n × QVec n → QMat n × QVec n

/-- The base-class `Preconditioner`: both operations are the identity. -/
def idPrecond (n : ℕ) : Precond n := ⟨id, id⟩

/-- The `err` field of a `Result`: `None` by default, the residual norm on a
normal return, or the caught exception. -/
inductive ResErr where
  | noneE
  | residual (r : ℚ)
  | exc (e : PyErr)
deriving DecidableEq

/-- `Result(result=..., converged=..., err=...)` with defaults
`result=None, converged=False, err=None`. -/
structure Result (n : ℕ) where
  result : Option (QVec n)
  converged : Bool
  err : ResErr

/-- A member of the `SystemSolver` family, reduced to the outcome of its
`solve_system` body: either a `(solution, converged, residual)` triple or a
raised exception. -/
structure SystemSolver (n : ℕ) where
  solveSystem : Except PyErr (QVec n × Bool × ℚ)

/-- `SystemSolver.solve`: run `solve_system` inside `try/except`, packing a
raised exception into `Result.err` with `result=None, converged=False`. -/
def SystemSolver.solve {n : ℕ} (s : SystemSolver n) : Result n :=
  match s.solveSystem with
  | .ok (res, conv, e) => ⟨some res, conv, .residual e⟩
  | .error ex => ⟨none, false, .exc ex⟩

/-- A `for _ in range(fuel)` loop whose body either returns out of the
function (`Sum.inl`) or updates the state (`Sum.inr`); falling off the end
of the loop produces `endf` of the final state. -/
def iterLoop {σ α : Type} (step : σ → α ⊕ σ) (endf : σ → α) : ℕ → σ → α
  | 0, st => endf st
  | fuel + 1, st =>
    match step st with
    | .inl a => a
    | .inr st2 => iterLoop step endf fuel st2

/-- The state part of one loop body execution (identity on early return). -/
def stepAdvance {σ α : Type} (step : σ → α ⊕ σ) (st : σ) : σ :=
  match step st with
  | .inl _ => st
  | .inr st2 => st2

/-- If no iteration of the loop takes an early return, the loop falls off the
end at the `fuel`-times advanced state. -/
theorem iterLoop_no_exit {σ α : Type} (step : σ → α ⊕ σ) (endf : σ → α)
    (fuel : ℕ) (st : σ)
    (h : ∀ k, k < fuel → ((step ((stepAdvance step)^[k] st)).isRight = true)) :
    iterLoop step endf fuel st = endf ((stepAdvance step)^[fuel] st) := by
  induction fuel generalizing st with
  | zero => rfl
  | succ m ih =>
      have h0 := h 0 (Nat.succ_pos m)
      simp only [Function.iterate_zero, id] at h0
      rcases hs : step st with a | st2
      · rw [hs] at h0; simp at h0
      · have hadv : stepAdvance step st = st2 := by
          simp [stepAdvance, hs]
        have hiter : ∀ k, (stepAdvance step)^[k] st2 =
            (stepAdvance step)^[k + 1] st := by
          intro k
          rw [Function.iterate_succ_apply, hadv]
        rw [iterLoop, hs]
        simp only []
        rw [ih st2 (fun k hk => by rw [hiter k]; exact h (k + 1) (by omega))]
        rw [hiter m]

/-! ### Conjugate Gradient -/

/-- The mutable attributes of `ConjugateGradientSolver` after `setup`. -/
structure CGState (n : ℕ) where
  A : QMat n
  b : QVec n
  x : QVec n
  r : QVec n
  p : QVec n
  rs_old : ℚ

/-- `ConjugateGradientSolver.setup`: precondition `(A, b)`, start from
`x = 0`, `r = b - A x`, precondition `r`, `p = r`,
`rs_old = batched_dot(r, r)`. -/
def cgInit {n : ℕ} (A : QMat n) (b : QVec n) (precond : Precond n) :
    CGState n :=
  let s1 := precond.setupFn (A, b)
  let x : QVec n := fun _ => 0
  let r0 : QVec n := fun i => s1.2 i - s1.1.mulVec x i
  let s2 := precond.applyFn (s1.1, r0)
  { A := s2.1, b := s1.2, x := x, r := s2.2, p := s2.2,
    rs_old := batched_dot s2.2 s2.2 }

/-- One full body of the CG loop (the convergence test is separate and uses
only fields this update already fixes). -/
def cgAdvance {n : ℕ} (precond : Precond n) (st : CGState n) : CGState n :=
  let Ap := st.A.mulVec st.p
  let alpha := st.rs_old / batched_dot st.p Ap
  let x : QVec n := fun i => st.x i + alpha * st.p i
  let r0 : QVec n := fun i => st.r i - alpha * Ap i
  let s2 := precond.applyFn (st.A, r0)
  let rs_new := batched_dot s2.2 s2.2
  { A := s2.1, b := st.b, x := x, r := s2.2,
    p := fun i => s2.2 i + (rs_new / st.rs_old) * st.p i, rs_old := rs_new }

/-- One CG iteration: run the body and early-return
`(x, True, sqrt rs_new)` when `sqrt rs_new < tolerance`. -/
def cgStep {n : ℕ} (precond : Precond n) (msqrt : ℚ → ℚ) (tol : ℚ)
    (st : CGState n) : (QVec n × Bool × ℚ) ⊕ CGState n :=
  let st2 := cgAdvance precond st
  if msqrt st2.rs_old < tol then .inl (st2.x, true, msqrt st2.rs_old)
  else .inr st2

/-- Falling off the CG loop: `(x, False, sqrt rs_new)` (with zero iterations
`rs_new` still holds the initial `rs_old`). -/
def cgEnd {n : ℕ} (msqrt : ℚ → ℚ) (st : CGState n) : QVec n × Bool × ℚ :=
  (st.x, false, msqrt st.rs_old)

/-- `ConjugateGradientSolver.solve_system`. -/
def cgSolveSystem {n : ℕ} (A : QMat n) (b : QVec n) (precond : Precond n)
    (iters : ℕ) (tol : ℚ) (msqrt : ℚ → ℚ) : QVec n × Bool × ℚ :=
  iterLoop (cgStep precond msqrt tol) (cgEnd msqrt) iters (cgInit A b precond)

/-! ### BiConjugate Gradient -/

/-- The mutable attributes of `BiConjugateGradientSolver` after `setup`. -/
structure BiCGState (n : ℕ) where
  A : QMat n
  b : QVec n
  x : QVec n
  r : QVec n
  r_hat : QVec n
  p : QVec n
  p_hat : QVec n
  rho_old : ℚ

/-- `BiConjugateGradientSolver.setup`. -/
def bicgInit {n : ℕ} (A : QMat n) (b : QVec n) (precond : Precond n) :
    BiCGState n :=
  let s1 := precond.setupFn (A, b)
  let x : QVec n := fun _ => 0
  let r0 : QVec n := fun i => s1.2 i - s1.1.mulVec x i
  let s2 := precond.applyFn (s1.1, r0)
  let s3 := precond.applyFn (s2.1, r0)
  { A := s3.1, b := s1.2, x := x, r := s2.2, r_hat := s3.2,
    p := s2.2, p_hat := s3.2, rho_old := batched_dot s3.2 s2.2 }

/-- The raw `alpha` denominator `batched_dot(p_hat, A p)` before the guard. -/
def bicgAlphaDenomRaw {n : ℕ} (st : BiCGState n) : ℚ :=
  batched_dot st.p_hat (st.A.mulVec st.p)

/-- The guarded `alpha` denominator:
`torch.where(denom == 0, 1e-20, denom)`. -/
def bicgAlphaDenom {n : ℕ} (st : BiCGState n) : ℚ :=
  if bicgAlphaDenomRaw st = 0 then 1 / 100000000000000000000 else
    bicgAlphaDenomRaw st

/-- The denominator of the `beta` update, `self.rho_old`, used directly with
no guard (`beta = rho_new / self.rho_old`). -/
def bicgBetaDenom {n : ℕ} (st : BiCGState n) : ℚ := st.rho_old

/-- One full body of the BiCG loop (the convergence test is separate and
uses only fields this update already fixes). -/
def bicgAdvance {n : ℕ} (precond : Precond n) (st : BiCGState n) :
    BiCGState n :=
  let Ap := st.A.mulVec st.p
  let ATp_hat := (st.A.transpose).mulVec st.p_hat
  let alpha := st.rho_old / bicgAlphaDenom st
  let x : QVec n := fun i => st.x i + alpha * st.p i
  let r0 : QVec n := fun i => st.r i - alpha * Ap i
  let rh0 : QVec n := fun i => st.r_hat i - alpha * ATp_hat i
  let s2 := precond.applyFn (st.A, r0)
  let s3 := precond.applyFn (s2.1, rh0)
  let rho_new := batched_dot s3.2 s2.2
  let beta := rho_new / bicgBetaDenom st
  { A := s3.1, b := st.b, x := x, r := s2.2, r_hat := s3.2,
    p := fun i => s2.2 i + beta * st.p i,
    p_hat := fun i => s3.2 i + beta * st.p_hat i,
    rho_old := rho_new }

/-- One BiCG iteration: run the body and early-return
`(x, True, sqrt |rho_new|)` when `sqrt |rho_new| < tolerance`. -/
def bicgStep {n : ℕ} (precond : Precond n) (msqrt : ℚ → ℚ) (tol : ℚ)
    (st : BiCGState n) : (QVec n × Bool × ℚ) ⊕ BiCGState n :=
  let st2 := bicgAdvance precond st
  if msqrt |st2.rho_old| < tol then .inl (st2.x, true, msqrt |st2.rho_old|)
  else .inr st2

/-- Falling off the BiCG loop: `(x, False, sqrt |rho_new|)`. -/
def bicgEnd {n : ℕ} (msqrt : ℚ → ℚ) (st : BiCGState n) : QVec n × Bool × ℚ :=
  (st.x, false, msqrt |st.rho_old|)

/-- `BiConjugateGradientSolver.solve_system`.  With zero iterations the
Python body reads the never-assigned local `rho_new` and raises
`NameError`. -/
def bicgSolveSystem {n : ℕ} (A : QMat n) (b : QVec n) (precond : Precond n)
    (iters : ℕ) (tol : ℚ) (msqrt : ℚ → ℚ) :
    Except PyErr (QVec n × Bool × ℚ) :=
  if iters = 0 then .error .nameError
  else .ok (iterLoop (bicgStep precond msqrt tol) (bicgEnd msqrt) iters
    (bicgInit A b precond))

/-! ### BiCGSTAB -/

/-- The mutable attributes of `BiConjugateGradientStabilizedSolver`. -/
structure StabState (n : ℕ) where
  A : QMat n
  b : QVec n
  x : QVec n
  r : QVec n
  r_hat : QVec n
  v : QVec n
  p : QVec n
  rho_old : ℚ
  alpha : ℚ
  omega : ℚ

/-- `BiConjugateGradientStabilizedSolver.setup`. -/
def stabInit {n : ℕ} (A : QMat n) (b : QVec n) (precond : Precond n) :
    StabState n :=
  let s1 := precond.setupFn (A, b)
  let x : QVec n := fun _ => 0
  let r : QVec n := fun i => s1.2 i - s1.1.mulVec x i
  { A := s1.1, b := s1.2, x := x, r := r, r_hat := r,
    v := fun _ => 0, p := fun _ => 0, rho_old := 1, alpha := 0, omega := 1 }

/-- `rho_new = batched_dot(r_hat, r)` at the top of a BiCGSTAB iteration. -/
def stabRho {n : ℕ} (st : StabState n) : ℚ := batched_dot st.r_hat st.r

/-- The search direction after the `beta` update and preconditioning. -/
def stabP {n : ℕ} (precond : Precond n) (st : StabState n) : QMat n × QVec n :=
  let rho_new := stabRho st
  let beta := (rho_new / st.rho_old) * (st.alpha / st.omega)
  precond.applyFn (st.A, fun i => st.r i + beta * (st.p i - st.omega * st.v i))

/-- `v = A p` for the preconditioned direction. -/
def stabV {n : ℕ} (precond : Precond n) (st : StabState n) : QVec n :=
  (stabP precond st).1.mulVec (stabP precond st).2

/-- Guarded `alpha = rho_new / where(r_hat·v == 0, 1e-20, r_hat·v)`. -/
def stabAlpha {n : ℕ} (precond : Precond n) (st : StabState n) : ℚ :=
  let denomRaw := batched_dot st.r_hat (stabV precond st)
  stabRho st /
    (if denomRaw = 0 then 1 / 100000000000000000000 else denomRaw)

/-- The intermediate residual `s = r - alpha * v` (before its
preconditioning). -/
def stabS {n : ℕ} (precond : Precond n) (st : StabState n) : QVec n :=
  fun i => st.r i - stabAlpha precond st * stabV precond st i

/-- The preconditioned `s` together with the matrix it leaves behind. -/
def stabS2 {n : ℕ} (precond : Precond n) (st : StabState n) :
    QMat n × QVec n :=
  precond.applyFn ((stabP precond st).1, stabS precond st)

/-- `t = A s` for the preconditioned intermediate residual. -/
def stabT {n : ℕ} (precond : Precond n) (st : StabState n) : QVec n :=
  (stabS2 precond st).1.mulVec (stabS2 precond st).2

/-- The stabilization scalar `omega = batched_dot(t, s) / batched_dot(t, t)`
of one BiCGSTAB iteration (no guard on the denominator). -/
def stabOmega {n : ℕ} (precond : Precond n) (st : StabState n) : ℚ :=
  batched_dot (stabT precond st) (stabS2 precond st).2 /
    batched_dot (stabT precond st) (stabT precond st)

/-- One BiCGSTAB iteration, with its four exits: `break` on
`rho_new == 0` (falls through to the non-converged final return),
early convergence on `‖s‖ < tolerance`, and the terminal return taken
when `err < tolerance` **or** `omega == 0`, which reports
`converged=True` in both cases. -/
def stabStep {n : ℕ} (precond : Precond n) (msqrt : ℚ → ℚ) (tol : ℚ)
    (st : StabState n) : (QVec n × Bool × ℚ) ⊕ StabState n :=
  let rho_new := stabRho st
  if rho_new = 0 then
    .inl (st.x, false, msqrt (batched_dot st.r st.r))
  else
    let p2 := stabP precond st
    let v2 := stabV precond st
    let alpha2 := stabAlpha precond st
    let s := stabS precond st
    if msqrt (batched_dot s s) < tol then
      .inl (fun i => st.x i + alpha2 * p2.2 i, true, msqrt (batched_dot s s))
    else
      let s2 := stabS2 precond st
      let t := stabT precond st
      let omega2 := stabOmega precond st
      let x2 : QVec n := fun i => st.x i + alpha2 * p2.2 i + omega2 * s2.2 i
      let r2 : QVec n := fun i => s2.2 i - omega2 * t i
      let err := msqrt (batched_dot r2 r2)
      if err < tol ∨ omega2 = 0 then .inl (x2, true, err)
      else .inr { A := s2.1, b := st.b, x := x2, r := r2, r_hat := st.r_hat,
                  v := v2, p := p2.2, rho_old := rho_new, alpha := alpha2,
                  omega := omega2 }

/-- Falling off the BiCGSTAB loop: `(x, False, ‖r‖)`. -/
def stabEnd {n : ℕ} (msqrt : ℚ → ℚ) (st : StabState n) : QVec n × Bool × ℚ :=
  (st.x, false, msqrt (batched_dot st.r st.r))

/-- `BiConjugateGradientStabilizedSolver.solve_system`. -/
def stabSolveSystem {n : ℕ} (A : QMat n) (b : QVec n) (precond : Precond n)
    (iters : ℕ) (tol : ℚ) (msqrt : ℚ → ℚ) : QVec n × Bool × ℚ :=
  iterLoop (stabStep precond msqrt tol) (stabEnd msqrt) iters
    (stabInit A b precond)

/-- `ConjugateGradientSolver` as a member of the `SystemSolver` family. -/
def SystemSolver.ofCG {n : ℕ} (A : QMat n) (b : QVec n) (precond : Precond n)
    (iters : ℕ) (tol : ℚ) (msqrt : ℚ → ℚ) : SystemSolver n :=
  ⟨.ok (cgSolveSystem A b precond iters tol msqrt)⟩

/-- `BiConjugateGradientSolver` as a member of the family. -/
def SystemSolver.ofBiCG {n : ℕ} (A : QMat n) (b : QVec n)
    (precond : Precond n) (iters : ℕ) (tol : ℚ) (msqrt : ℚ → ℚ) :
    SystemSolver n :=
  ⟨bicgSolveSystem A b precond iters tol msqrt⟩

/-- `BiConjugateGradientStabilizedSolver` as a member of the family. -/
def SystemSolver.ofStab {n : ℕ} (A : QMat n) (b : QVec n)
    (precond : Precond n) (iters : ℕ) (tol : ℚ) (msqrt : ℚ → ℚ) :
    SystemSolver n :=
  ⟨.ok (stabSolveSystem A b precond iters tol msqrt)⟩

/-- If every iteration up to the cap continues with the advanced state, the
loop falls off the end at the `fuel`-times advanced state. -/
theorem iterLoop_all_inr {σ α : Type} (step : σ → α ⊕ σ) (endf : σ → α)
    (adv : σ → σ) (fuel : ℕ) (st : σ)
    (h : ∀ k, k < fuel → step (adv^[k] st) = .inr (adv^[k + 1] st)) :
    iterLoop step endf fuel st = endf (adv^[fuel] st) := by
  induction fuel generalizing st with
  | zero => rfl
  | succ m ih =>
      have h0 := h 0 (Nat.succ_pos m)
      simp only [Function.iterate_zero, Nat.zero_add, Function.iterate_one,
        id] at h0
      rw [iterLoop, h0]
      simp only []
      have hiter : ∀ k, adv^[k] (adv st) = adv^[k + 1] st := by
        intro k
        rw [Function.iterate_succ_apply]
      rw [ih (adv st) (fun k hk => by
        rw [hiter k, hiter (k + 1)]; exact h (k + 1) (by omega))]
      rw [hiter m]

/-- Claim C2: for every solver in the `SystemSolver` family and every input,
`solve()` returns a `Result` and never propagates: a failure raised inside
`solve_system` is caught and stored in `Result.err` with `converged=false`
and `result=None`, and a normal return is packed as
`(result, converged, residual)`. -/
theorem claim_C2_solve_catches (n : ℕ) (s : SystemSolver n) :
    (∀ e : PyErr, s.solveSystem = .error e →
      s.solve = ⟨none, false, .exc e⟩) ∧
    (∀ t : QVec n × Bool × ℚ, s.solveSystem = .ok t →
      s.solve = ⟨some t.1, t.2.1, .residual t.2.2⟩) := by
  constructor
  · intro e he
    simp [SystemSolver.solve, he]
  · intro t ht
    simp [SystemSolver.solve, ht]

/-- Witness for C2: a family member whose `solve_system` raises
(as the direct solver does on a singular factorization) yields
`result=None, converged=false` with the exception in `err`. -/
theorem claim_C2_witness :
    (SystemSolver.mk (n := 2) (.error .runtimeError)).solveSystem =
      .error .runtimeError ∧
    (SystemSolver.mk (n := 2) (.error .runtimeError)).solve =
      ⟨none, false, .exc .runtimeError⟩ :=
  ⟨rfl, (claim_C2_solve_catches 2 ⟨.error .runtimeError⟩).1 .runtimeError rfl⟩

/-! ### C3: the `omega == 0` exit of BiCGSTAB -/

/-- The matrix of the C3 counterexample run. -/
def Aomega : QMat 2 := Matrix.of ![![1, 1], ![1, 0]]

/-- The right-hand side of the C3 counterexample run. -/
def bomega : QVec 2 := ![1, 0]

/-- Counterexample to claim C3 as stated: on `A = [[1,1],[1,0]]`,
`b = (1,0)` with the identity preconditioner and default tolerance `1e-6`,
the first BiCGSTAB iteration computes `omega = (t·s)/(t·t) = 0` while the
intermediate residual `‖s‖ = 1` is far above tolerance, yet `solve_system`
stops and returns `converged = True` with residual `1`: the `omega == 0`
exit reports convergence, not a stagnation failure. -/
theorem claim_C3_counterexample :
    stabOmega (idPrecond 2) (stabInit Aomega bomega (idPrecond 2)) = 0 ∧
    ¬ ratSqrt (batched_dot
        (stabS (idPrecond 2) (stabInit Aomega bomega (idPrecond 2)))
        (stabS (idPrecond 2) (stabInit Aomega bomega (idPrecond 2)))) <
      1 / 1000000 ∧
    (stabSolveSystem Aomega bomega (idPrecond 2) 100 (1 / 1000000)
        ratSqrt).2.1 = true ∧
    (stabSolveSystem Aomega bomega (idPrecond 2) 100 (1 / 1000000)
        ratSqrt).2.2 = 1 := by
  refine ⟨?_, ?_, ?_, ?_⟩ <;> with_unfolding_all decide

/-- Claim C3 as amended: in a BiCGSTAB iteration with `rho_new ≠ 0` whose
intermediate residual `‖s‖` does not yet meet tolerance, `omega == 0` makes
the iteration terminal, but through the same early exit as convergence: the
returned triple reports `converged = True` together with the current
residual norm.  Separately (second conjunct), when `‖s‖` is already below
tolerance the iteration exits reporting convergence with
`x += alpha * p`. -/
theorem claim_C3_omega_exit (n : ℕ) (precond : Precond n) (msqrt : ℚ → ℚ)
    (tol : ℚ) (st : StabState n) :
    (stabRho st ≠ 0 →
     ¬ msqrt (batched_dot (stabS precond st) (stabS precond st)) < tol →
     stabOmega precond st = 0 →
     stabStep precond msqrt tol st =
       .inl (fun i => st.x i + stabAlpha precond st * (stabP precond st).2 i
               + stabOmega precond st * (stabS2 precond st).2 i,
             true,
             msqrt (batched_dot
               (fun i => (stabS2 precond st).2 i -
                 stabOmega precond st * stabT precond st i)
               (fun i => (stabS2 precond st).2 i -
                 stabOmega precond st * stabT precond st i)))) ∧
    (stabRho st ≠ 0 →
     msqrt (batched_dot (stabS precond st) (stabS precond st)) < tol →
     stabStep precond msqrt tol st =
       .inl (fun i => st.x i + stabAlpha precond st * (stabP precond st).2 i,
             true,
             msqrt (batched_dot (stabS precond st) (stabS precond st)))) := by
  constructor
  · intro h1 h2 h3
    simp only [stabStep, if_neg h1, if_neg h2]
    rw [if_pos (Or.inr h3)]
  · intro h1 h2
    simp only [stabStep, if_neg h1, if_pos h2]

/-- Witness for the amended C3 at the concrete `omega = 0` run. -/
theorem claim_C3_witness :
    (stabRho (stabInit Aomega bomega (idPrecond 2)) ≠ 0 ∧
     ¬ ratSqrt (batched_dot
         (stabS (idPrecond 2) (stabInit Aomega bomega (idPrecond 2)))
         (stabS (idPrecond 2) (stabInit Aomega bomega (idPrecond 2)))) <
       1 / 1000000 ∧
     stabOmega (idPrecond 2) (stabInit Aomega bomega (idPrecond 2)) = 0) ∧
    stabStep (idPrecond 2) ratSqrt (1 / 1000000)
        (stabInit Aomega bomega (idPrecond 2)) =
      .inl (fun i => (stabInit Aomega bomega (idPrecond 2)).x i +
              stabAlpha (idPrecond 2) (stabInit Aomega bomega (idPrecond 2)) *
                (stabP (idPrecond 2)
                  (stabInit Aomega bomega (idPrecond 2))).2 i
              + stabOmega (idPrecond 2)
                  (stabInit Aomega bomega (idPrecond 2)) *
                (stabS2 (idPrecond 2)
                  (stabInit Aomega bomega (idPrecond 2))).2 i,
            true,
            ratSqrt (batched_dot
              (fun i => (stabS2 (idPrecond 2)
                  (stabInit Aomega bomega (idPrecond 2))).2 i -
                stabOmega (idPrecond 2)
                    (stabInit Aomega bomega (idPrecond 2)) *
                  stabT (idPrecond 2)
                    (stabInit Aomega bomega (idPrecond 2)) i)
              (fun i => (stabS2 (idPrecond 2)
                  (stabInit Aomega bomega (idPrecond 2))).2 i -
                stabOmega (idPrecond 2)
                    (stabInit Aomega bomega (idPrecond 2)) *
                  stabT (idPrecond 2)
                    (stabInit Aomega bomega (idPrecond 2)) i))) :=
  ⟨⟨by with_unfolding_all decide, by with_unfolding_all decide,
    by with_unfolding_all decide⟩,
   (claim_C3_omega_exit 2 (idPrecond 2) ratSqrt (1 / 1000000)
      (stabInit Aomega bomega (idPrecond 2))).1
     (by with_unfolding_all decide) (by with_unfolding_all decide)
     (by with_unfolding_all decide)⟩

/-! ### C4: divide-by-zero guards in BiCG -/

/-- The 2×2 identity system matrix used for the C4 counterexample. -/
def A2id : QMat 2 := Matrix.of ![![1, 0], ![0, 1]]

/-- The zero right-hand side of the C4 counterexample. -/
def bzero : QVec 2 := ![0, 0]

/-- A BiCG iteration whose end-of-body residual does not meet tolerance
continues to the next iteration (so its whole body, including the `beta`
division, was executed). -/
theorem bicgStep_isRight (n : ℕ) (precond : Precond n) (msqrt : ℚ → ℚ)
    (tol : ℚ) (st : BiCGState n)
    (h : ¬ msqrt |(bicgAdvance precond st).rho_old| < tol) :
    bicgStep precond msqrt tol st = .inr (bicgAdvance precond st) := by
  simp only [bicgStep, if_neg h]

set_option maxRecDepth 2000 in
/-- In the `A = I`, `b = 0`, `tolerance = 0` BiCG run, the end-of-body
residual test of the first iteration fails (`sqrt 0 < 0` is false). -/
theorem bicg_zero_run_no_exit :
    ¬ ratSqrt |(bicgAdvance (idPrecond 2)
        (bicgInit A2id bzero (idPrecond 2))).rho_old| < 0 := by
  with_unfolding_all decide

set_option maxRecDepth 2000 in
/-- In the `A = I`, `b = 0` BiCG run the raw `alpha` denominator
`batched_dot(p_hat, Ap)` is zero, so the `torch.where` guard fires. -/
theorem bicg_zero_run_alpha_raw :
    bicgAlphaDenomRaw (bicgInit A2id bzero (idPrecond 2)) = 0 := by
  with_unfolding_all decide

set_option maxRecDepth 2000 in
/-- Counterexample to claim C4 as stated: with `A = I`, `b = 0` and the
default tolerance `0.0`, the first BiCG iteration runs its whole body (the
residual test `sqrt |rho_new| < 0` fails, so no early return), its `alpha`
denominator is epsilon-substituted, but its `beta` coefficient divides by
`rho_old = batched_dot(r_hat, r) = 0` with no guard: not every division
forming `alpha`/`beta` is protected against a zero denominator. -/
theorem claim_C4_counterexample :
    bicgBetaDenom (bicgInit A2id bzero (idPrecond 2)) = 0 ∧
    bicgStep (idPrecond 2) ratSqrt 0 (bicgInit A2id bzero (idPrecond 2)) =
      .inr (bicgAdvance (idPrecond 2) (bicgInit A2id bzero (idPrecond 2))) ∧
    bicgAlphaDenom (bicgInit A2id bzero (idPrecond 2)) =
      1 / 100000000000000000000 :=
  ⟨by with_unfolding_all decide,
   bicgStep_isRight 2 (idPrecond 2) ratSqrt 0
     (bicgInit A2id bzero (idPrecond 2)) bicg_zero_run_no_exit,
   by rw [bicgAlphaDenom, if_pos bicg_zero_run_alpha_raw]⟩

/-- Claim C4 as amended: only the `alpha` denominator is guarded — the
`torch.where` substitution makes it `1e-20` whenever `batched_dot(p_hat, Ap)`
vanishes, so the `alpha` division never sees a zero denominator — while the
`beta` denominator `rho_old` is used unguarded and is zero in an executed
iteration of the concrete run above. -/
theorem claim_C4_alpha_guarded (n : ℕ) (st : BiCGState n) :
    bicgAlphaDenom st ≠ 0 ∧
    bicgBetaDenom st = st.rho_old := by
  constructor
  · unfold bicgAlphaDenom
    by_cases h : bicgAlphaDenomRaw st = 0
    · rw [if_pos h]; norm_num
    · rw [if_neg h]; exact h
  · rfl

/-! ### C6: iteration cap reached without convergence -/

/-- The continue-state of one BiCGSTAB iteration (the `.inr` payload of
`stabStep`). -/
def stabAdvance {n : ℕ} (precond : Precond n) (st : StabState n) :
    StabState n :=
  { A := (stabS2 precond st).1, b := st.b,
    x := fun i => st.x i + stabAlpha precond st * (stabP precond st).2 i
           + stabOmega precond st * (stabS2 precond st).2 i,
    r := fun i => (stabS2 precond st).2 i -
           stabOmega precond st * stabT precond st i,
    r_hat := st.r_hat, v := stabV precond st, p := (stabP precond st).2,
    rho_old := stabRho st, alpha := stabAlpha precond st,
    omega := stabOmega precond st }

/-- A BiCGSTAB iteration on which none of the three exits fires continues
with the advanced state. -/
theorem stabStep_continue {n : ℕ} (precond : Precond n) (msqrt : ℚ → ℚ)
    (tol : ℚ) (st : StabState n)
    (h1 : stabRho st ≠ 0)
    (h2 : ¬ msqrt (batched_dot (stabS precond st) (stabS precond st)) < tol)
    (h3 : ¬ (msqrt (batched_dot (stabAdvance precond st).r
              (stabAdvance precond st).r) < tol ∨
            stabOmega precond st = 0)) :
    stabStep precond msqrt tol st = .inr (stabAdvance precond st) := by
  simp only [stabStep, stabAdvance] at *
  rw [if_neg h1, if_neg h2, if_neg h3]

/-- CG under the cap: if the residual test fails at every iteration, the
loop runs `iters` full bodies and returns the best-effort iterate with
`converged = False` and the last residual norm. -/
theorem cgSolveSystem_cap {n : ℕ} (A : QMat n) (b : QVec n)
    (precond : Precond n) (iters : ℕ) (tol : ℚ) (msqrt : ℚ → ℚ)
    (h : ∀ k, k < iters →
      ¬ msqrt ((cgAdvance precond)^[k + 1] (cgInit A b precond)).rs_old <
        tol) :
    cgSolveSystem A b precond iters tol msqrt =
      (((cgAdvance precond)^[iters] (cgInit A b precond)).x, false,
       msqrt ((cgAdvance precond)^[iters] (cgInit A b precond)).rs_old) := by
  unfold cgSolveSystem
  rw [iterLoop_all_inr (cgStep precond msqrt tol) (cgEnd msqrt)
    (cgAdvance precond) iters (cgInit A b precond)]
  · rfl
  · intro k hk
    have hadv : cgAdvance precond ((cgAdvance precond)^[k]
        (cgInit A b precond)) =
        (cgAdvance precond)^[k + 1] (cgInit A b precond) :=
      (Function.iterate_succ_apply' (cgAdvance precond) k _).symm
    simp only [cgStep, hadv, if_neg (h k hk)]

/-- BiCG under the cap (at least one iteration, else the Python body raises
`NameError` instead). -/
theorem bicgSolveSystem_cap {n : ℕ} (A : QMat n) (b : QVec n)
    (precond : Precond n) (iters : ℕ) (tol : ℚ) (msqrt : ℚ → ℚ)
    (hpos : iters ≠ 0)
    (h : ∀ k, k < iters →
      ¬ msqrt |((bicgAdvance precond)^[k + 1]
          (bicgInit A b precond)).rho_old| < tol) :
    bicgSolveSystem A b precond iters tol msqrt =
      .ok (((bicgAdvance precond)^[iters] (bicgInit A b precond)).x, false,
        msqrt |((bicgAdvance precond)^[iters]
          (bicgInit A b precond)).rho_old|) := by
  unfold bicgSolveSystem
  rw [if_neg hpos]
  rw [iterLoop_all_inr (bicgStep precond msqrt tol) (bicgEnd msqrt)
    (bicgAdvance precond) iters (bicgInit A b precond)]
  · rfl
  · intro k hk
    have hadv : bicgAdvance precond ((bicgAdvance precond)^[k]
        (bicgInit A b precond)) =
        (bicgAdvance precond)^[k + 1] (bicgInit A b precond) :=
      (Function.iterate_succ_apply' (bicgAdvance precond) k _).symm
    simp only [bicgStep, hadv, if_neg (h k hk)]

/-- BiCGSTAB under the cap: if no iteration fires an exit, the loop returns
the best-effort iterate with `converged = False` and `‖r‖`. -/
theorem stabSolveSystem_cap {n : ℕ} (A : QMat n) (b : QVec n)
    (precond : Precond n) (iters : ℕ) (tol : ℚ) (msqrt : ℚ → ℚ)
    (h : ∀ k, k < iters →
      stabRho ((stabAdvance precond)^[k] (stabInit A b precond)) ≠ 0 ∧
      ¬ msqrt (batched_dot
          (stabS precond ((stabAdvance precond)^[k] (stabInit A b precond)))
          (stabS precond ((stabAdvance precond)^[k]
            (stabInit A b precond)))) < tol ∧
      ¬ (msqrt (batched_dot
            ((stabAdvance precond)^[k + 1] (stabInit A b precond)).r
            ((stabAdvance precond)^[k + 1] (stabInit A b precond)).r) <
          tol ∨
         stabOmega precond ((stabAdvance precond)^[k]
           (stabInit A b precond)) = 0)) :
    stabSolveSystem A b precond iters tol msqrt =
      (((stabAdvance precond)^[iters] (stabInit A b precond)).x, false,
       msqrt (batched_dot
         ((stabAdvance precond)^[iters] (stabInit A b precond)).r
         ((stabAdvance precond)^[iters] (stabInit A b precond)).r)) := by
  unfold stabSolveSystem
  rw [iterLoop_all_inr (stabStep precond msqrt tol) (stabEnd msqrt)
    (stabAdvance precond) iters (stabInit A b precond)]
  · rfl
  · intro k hk
    have hadv : stabAdvance precond ((stabAdvance precond)^[k]
        (stabInit A b precond)) =
        (stabAdvance precond)^[k + 1] (stabInit A b precond) :=
      (Function.iterate_succ_apply' (stabAdvance precond) k _).symm
    obtain ⟨h1, h2, h3⟩ := h k hk
    rw [← hadv] at h3
    rw [stabStep_continue precond msqrt tol _ h1 h2 h3, hadv]

/-- Claim C6: for each iterative solver (CG, BiCG, BiCGSTAB), when the
iteration cap is reached without the residual meeting tolerance (no early
exit fires in any iteration), `solve_system` returns `converged = false`
together with the best-effort iterate and the last residual norm, raising
nothing; with `iters = 1` on a system needing more iterations the returned
solution is the first (partial) iterate. -/
theorem claim_C6_cap_best_effort (n : ℕ) (A : QMat n) (b : QVec n)
    (precond : Precond n) (iters : ℕ) (tol : ℚ) (msqrt : ℚ → ℚ) :
    ((∀ k, k < iters →
        ¬ msqrt ((cgAdvance precond)^[k + 1] (cgInit A b precond)).rs_old <
          tol) →
      cgSolveSystem A b precond iters tol msqrt =
        (((cgAdvance precond)^[iters] (cgInit A b precond)).x, false,
         msqrt ((cgAdvance precond)^[iters]
           (cgInit A b precond)).rs_old)) ∧
    (iters ≠ 0 →
      (∀ k, k < iters →
        ¬ msqrt |((bicgAdvance precond)^[k + 1]
            (bicgInit A b precond)).rho_old| < tol) →
      bicgSolveSystem A b precond iters tol msqrt =
        .ok (((bicgAdvance precond)^[iters] (bicgInit A b precond)).x,
          false,
          msqrt |((bicgAdvance precond)^[iters]
            (bicgInit A b precond)).rho_old|)) ∧
    ((∀ k, k < iters →
        stabRho ((stabAdvance precond)^[k] (stabInit A b precond)) ≠ 0 ∧
        ¬ msqrt (batched_dot
            (stabS precond ((stabAdvance precond)^[k]
              (stabInit A b precond)))
            (stabS precond ((stabAdvance precond)^[k]
              (stabInit A b precond)))) < tol ∧
        ¬ (msqrt (batched_dot
              ((stabAdvance precond)^[k + 1] (stabInit A b precond)).r
              ((stabAdvance precond)^[k + 1] (stabInit A b precond)).r) <
            tol ∨
           stabOmega precond ((stabAdvance precond)^[k]
             (stabInit A b precond)) = 0)) →
      stabSolveSystem A b precond iters tol msqrt =
        (((stabAdvance precond)^[iters] (stabInit A b precond)).x, false,
         msqrt (batched_dot
           ((stabAdvance precond)^[iters] (stabInit A b precond)).r
           ((stabAdvance precond)^[iters] (stabInit A b precond)).r))) :=
  ⟨cgSolveSystem_cap A b precond iters tol msqrt,
   fun hpos => bicgSolveSystem_cap A b precond iters tol msqrt hpos,
   stabSolveSystem_cap A b precond iters tol msqrt⟩

/-- The SPD matrix of the C6 witness run. -/
def Acap : QMat 2 := Matrix.of ![![2, 1], ![1, 2]]

/-- The right-hand side of the C6 witness run. -/
def bcap : QVec 2 := ![1, 0]

set_option maxRecDepth 2000 in
/-- Witness for C6: `maxIters = 1` on a system needing more iterations —
all three solvers return `converged = false` with the first (partial)
iterate, not an exception. -/
theorem claim_C6_witness :
    ((∀ k, k < 1 →
        ¬ ratSqrt ((cgAdvance (idPrecond 2))^[k + 1]
            (cgInit Acap bcap (idPrecond 2))).rs_old < 1 / 1000000) ∧
     ((1 : ℕ) ≠ 0) ∧
     (∀ k, k < 1 →
        ¬ ratSqrt |((bicgAdvance (idPrecond 2))^[k + 1]
            (bicgInit Acap bcap (idPrecond 2))).rho_old| < 1 / 1000000) ∧
     (∀ k, k < 1 →
        stabRho ((stabAdvance (idPrecond 2))^[k]
          (stabInit Acap bcap (idPrecond 2))) ≠ 0 ∧
        ¬ ratSqrt (batched_dot
            (stabS (idPrecond 2) ((stabAdvance (idPrecond 2))^[k]
              (stabInit Acap bcap (idPrecond 2))))
            (stabS (idPrecond 2) ((stabAdvance (idPrecond 2))^[k]
              (stabInit Acap bcap (idPrecond 2))))) < 1 / 1000000 ∧
        ¬ (ratSqrt (batched_dot
              ((stabAdvance (idPrecond 2))^[k + 1]
                (stabInit Acap bcap (idPrecond 2))).r
              ((stabAdvance (idPrecond 2))^[k + 1]
                (stabInit Acap bcap (idPrecond 2))).r) < 1 / 1000000 ∨
           stabOmega (idPrecond 2) ((stabAdvance (idPrecond 2))^[k]
             (stabInit Acap bcap (idPrecond 2))) = 0))) ∧
    cgSolveSystem Acap bcap (idPrecond 2) 1 (1 / 1000000) ratSqrt =
      (((cgAdvance (idPrecond 2))^[1] (cgInit Acap bcap (idPrecond 2))).x,
       false,
       ratSqrt ((cgAdvance (idPrecond 2))^[1]
         (cgInit Acap bcap (idPrecond 2))).rs_old) ∧
    bicgSolveSystem Acap bcap (idPrecond 2) 1 (1 / 1000000) ratSqrt =
      .ok (((bicgAdvance (idPrecond 2))^[1]
          (bicgInit Acap bcap (idPrecond 2))).x, false,
        ratSqrt |((bicgAdvance (idPrecond 2))^[1]
          (bicgInit Acap bcap (idPrecond 2))).rho_old|) ∧
    stabSolveSystem Acap bcap (idPrecond 2) 1 (1 / 1000000) ratSqrt =
      (((stabAdvance (idPrecond 2))^[1] (stabInit Acap bcap (idPrecond 2))).x,
       false,
       ratSqrt (batched_dot
         ((stabAdvance (idPrecond 2))^[1]
           (stabInit Acap bcap (idPrecond 2))).r
         ((stabAdvance (idPrecond 2))^[1]
           (stabInit Acap bcap (idPrecond 2))).r)) := by
  have hcg : ∀ k, k < 1 →
      ¬ ratSqrt ((cgAdvance (idPrecond 2))^[k + 1]
          (cgInit Acap bcap (idPrecond 2))).rs_old < 1 / 1000000 := by
    intro k hk
    have hk0 : k = 0 := by omega
    subst hk0
    with_unfolding_all decide
  have hbicg : ∀ k, k < 1 →
      ¬ ratSqrt |((bicgAdvance (idPrecond 2))^[k + 1]
          (bicgInit Acap bcap (idPrecond 2))).rho_old| < 1 / 1000000 := by
    intro k hk
    have hk0 : k = 0 := by omega
    subst hk0
    with_unfolding_all decide
  have hstab : ∀ k, k < 1 →
      stabRho ((stabAdvance (idPrecond 2))^[k]
        (stabInit Acap bcap (idPrecond 2))) ≠ 0 ∧
      ¬ ratSqrt (batched_dot
          (stabS (idPrecond 2) ((stabAdvance (idPrecond 2))^[k]
            (stabInit Acap bcap (idPrecond 2))))
          (stabS (idPrecond 2) ((stabAdvance (idPrecond 2))^[k]
            (stabInit Acap bcap (idPrecond 2))))) < 1 / 1000000 ∧
      ¬ (ratSqrt (batched_dot
            ((stabAdvance (idPrecond 2))^[k + 1]
              (stabInit Acap bcap (idPrecond 2))).r
            ((stabAdvance (idPrecond 2))^[k + 1]
              (stabInit Acap bcap (idPrecond 2))).r) < 1 / 1000000 ∨
         stabOmega (idPrecond 2) ((stabAdvance (idPrecond 2))^[k]
           (stabInit Acap bcap (idPrecond 2))) = 0) := by
    intro k hk
    have hk0 : k = 0 := by omega
    subst hk0
    refine ⟨?_, ?_, ?_⟩ <;> with_unfolding_all decide
  exact ⟨⟨hcg, one_ne_zero, hbicg, hstab⟩,
    (claim_C6_cap_best_effort 2 Acap bcap (idPrecond 2) 1 (1 / 1000000)
      ratSqrt).1 hcg,
    (claim_C6_cap_best_effort 2 Acap bcap (idPrecond 2) 1 (1 / 1000000)
      ratSqrt).2.1 one_ne_zero hbicg,
    (claim_C6_cap_best_effort 2 Acap bcap (idPrecond 2) 1 (1 / 1000000)
      ratSqrt).2.2 hstab⟩

/-! ## Solver manager (`src/utils/math/solvers/manager.py`) -/

/-- `SolverConfig` (`solvers/config.py`); the torch device field is not
modelled. -/
structure SolverConfig where
  solver : String
  precond : String
  iters : ℕ
  tolerance : ℚ
  block_size : ℕ

/-- The preconditioner classes of `preconds.py`, as selector values. -/
inductive PrecondKind where
  | identity
  | jacobi
  | blockJacobi (bs : ℕ)
  | leftScaling
  | iterative
  | symmetricScaling
  | approxInverse
deriving DecidableEq

/-- The solver classes of `solvers.py`, as selector values. -/
inductive SolverClass where
  | direct
  | cg
  | bicg
  | bicgstab
deriving DecidableEq

/-- The solver instance built by the manager: a solver class plus its
constructor arguments, or the exception the construction raised. -/
inductive RoutedSolver (n : ℕ) where
  | direct (A : QMat n) (b : QVec n)
  | cg (A : QMat n) (b : QVec n) (precond : PrecondKind) (iters : ℕ)
      (tol : ℚ)
  | bicg (A : QMat n) (b : QVec n) (precond : PrecondKind) (iters : ℕ)
      (tol : ℚ)
  | bicgstab (A : QMat n) (b : QVec n) (precond : PrecondKind) (iters : ℕ)
      (tol : ℚ)
  | raised (e : PyErr)

/-- `torch.allclose(A, B)` with the default `rtol=1e-5`, `atol=1e-8`:
elementwise `|A - B| ≤ atol + rtol * |B|`. -/
def allclose {n : ℕ} (A B : QMat n) : Bool :=
  decide (∀ i j, |A i j - B i j| ≤
    1 / 100000000 + (1 / 100000) * |B i j|)

/-- `Solver.derive_precond`: identity for the direct solver or a
well-conditioned matrix (`cond < 1e3`), else block-Jacobi for sparse
matrices and Jacobi for dense ones.  `condO` is the oracle standing in for
`torch.linalg.cond(A).real`, `isSparse` for `A.is_sparse`. -/
def derive_precond {n : ℕ} (condO : QMat n → ℚ) (isSparse : Bool)
    (A : QMat n) (_b : QVec n) (solver_cls : SolverClass)
    (config : SolverConfig) : PrecondKind :=
  if solver_cls = .direct then .identity
  else if condO A < 1000 then .identity
  else if isSparse then .blockJacobi config.block_size
  else .jacobi

/-- `Solver.derive_solver`: probe the matrix — `symmetric =
torch.allclose(A, A.T)` and `eig_min = torch.linalg.eigvals(A).real.min()`
(the oracle `eigMin`); symmetric with positive minimum eigenvalue routes to
Conjugate Gradient, everything else to BiCGSTAB, each with a derived
preconditioner and the configured iteration cap and tolerance. -/
def derive_solver {n : ℕ} (eigMin condO : QMat n → ℚ) (isSparse : Bool)
    (A : QMat n) (b : QVec n) (config : SolverConfig) : RoutedSolver n :=
  if allclose A A.transpose = true ∧ 0 < eigMin A then
    .cg A b (derive_precond condO isSparse A b .cg config) config.iters
      config.tolerance
  else
    .bicgstab A b (derive_precond condO isSparse A b .bicgstab config)
      config.iters config.tolerance

/-- `Solver.get_precond`: `AUTO` derives, `Block Jacobi` uses the
configured block size, other recognized names map to their class, and an
unknown name raises `ValueError`. -/
def get_precond {n : ℕ} (condO : QMat n → ℚ) (isSparse : Bool) (A : QMat n)
    (b : QVec n) (config : SolverConfig) (solver_cls : SolverClass) :
    Except PyErr PrecondKind :=
  if config.precond = "AUTO" then
    .ok (derive_precond condO isSparse A b solver_cls config)
  else if config.precond = "Block Jacobi" then
    .ok (.blockJacobi config.block_size)
  else if config.precond = "None" then .ok .identity
  else if config.precond = "Jacobi" then .ok .jacobi
  else if config.precond = "Left Scaling" then .ok .leftScaling
  else if config.precond = "Iterative" then .ok .iterative
  else if config.precond = "Symmetric" then .ok .symmetricScaling
  else if config.precond = "Approx Inverse" then .ok .approxInverse
  else .error .valueError

/-- `Solver.get_solver`: `AUTO` probes and derives, `DIRECT` short-circuits
to the direct solver, recognized class names construct the class with
`(A, b, precond, iters, tolerance)` (for `Direct` this raises `TypeError`:
`DirectSparseSolver.__init__` only accepts `(A, b, device)`), and an
unknown name raises `ValueError`. -/
def get_solver {n : ℕ} (eigMin condO : QMat n → ℚ) (isSparse : Bool)
    (A : QMat n) (b : QVec n) (config : SolverConfig) : RoutedSolver n :=
  if config.solver = "AUTO" then
    derive_solver eigMin condO isSparse A b config
  else if config.solver = "DIRECT" then .direct A b
  else if config.solver = "Direct" then
    match get_precond condO isSparse A b config .direct with
    | .error e => .raised e
    | .ok _ => .raised .typeError
  else if config.solver = "Conjugate Gradient" then
    match get_precond condO isSparse A b config .cg with
    | .error e => .raised e
    | .ok p => .cg A b p config.iters config.tolerance
  else if config.solver = "Biconjugate Gradient" then
    match get_precond condO isSparse A b config .bicg with
    | .error e => .raised e
    | .ok p => .bicg A b p config.iters config.tolerance
  else if config.solver = "BiCGSTAB" then
    match get_precond condO isSparse A b config .bicgstab with
    | .error e => .raised e
    | .ok p => .bicgstab A b p config.iters config.tolerance
  else .raised .valueError

/-- A matrix equal to its transpose passes the `torch.allclose` symmetry
probe. -/
theorem allclose_of_symmetric {n : ℕ} (A : QMat n) (h : A = A.transpose) :
    allclose A A.transpose = true := by
  unfold allclose
  rw [decide_eq_true_iff]
  intro i j
  rw [← h]
  simp only [sub_self, abs_zero]
  positivity

/-- Claim C5: with `config.solver = AUTO` the manager probes the matrix:
if `A` equals its transpose and the probed minimum eigenvalue is positive,
the solve is routed to Conjugate Gradient, and otherwise to BiCGSTAB, in
both cases with the configured iteration cap and tolerance. -/
theorem claim_C5_auto_routing (n : ℕ) (eigMin condO : QMat n → ℚ)
    (isSparse : Bool) (b : QVec n) (config : SolverConfig)
    (hauto : config.solver = "AUTO") :
    (∀ A : QMat n, A = A.transpose → 0 < eigMin A →
      get_solver eigMin condO isSparse A b config =
        .cg A b (derive_precond condO isSparse A b .cg config) config.iters
          config.tolerance) ∧
    (∀ A : QMat n, ¬ (allclose A A.transpose = true ∧ 0 < eigMin A) →
      get_solver eigMin condO isSparse A b config =
        .bicgstab A b (derive_precond condO isSparse A b .bicgstab config)
          config.iters config.tolerance) := by
  constructor
  · intro A hsym heig
    rw [get_solver, if_pos hauto, derive_solver,
      if_pos ⟨allclose_of_symmetric A hsym, heig⟩]
  · intro A hfail
    rw [get_solver, if_pos hauto, derive_solver, if_neg hfail]

/-- The symmetric positive-definite 4×4 probe matrix `diag(1,2,3,4)`. -/
def Aspd : QMat 4 :=
  Matrix.of ![![1, 0, 0, 0], ![0, 2, 0, 0], ![0, 0, 3, 0], ![0, 0, 0, 4]]

/-- The asymmetric 4×4 probe matrix (one off-diagonal 1). -/
def Aasym : QMat 4 :=
  Matrix.of ![![1, 1, 0, 0], ![0, 1, 0, 0], ![0, 0, 1, 0], ![0, 0, 0, 1]]

set_option maxRecDepth 2000 in
/-- Witness for C5: under `Auto`, the manufactured SPD `diag(1,2,3,4)`
(probed minimum eigenvalue `1`) routes to Conjugate Gradient and the
manufactured asymmetric matrix fails the `allclose` symmetry probe and
routes to BiCGSTAB. -/
theorem claim_C5_witness :
    ((⟨"AUTO", "NONE", 100, 0, 3⟩ : SolverConfig).solver = "AUTO" ∧
     Aspd = Aspd.transpose ∧
     (0 : ℚ) < 1 ∧
     ¬ (allclose Aasym Aasym.transpose = true ∧ (0 : ℚ) < 1)) ∧
    get_solver (n := 4) (fun _ => 1) (fun _ => 1) false Aspd
        (fun _ => 0) ⟨"AUTO", "NONE", 100, 0, 3⟩ =
      .cg Aspd (fun _ => 0)
        (derive_precond (fun _ => 1) false Aspd (fun _ => 0) .cg
          ⟨"AUTO", "NONE", 100, 0, 3⟩) 100 0 ∧
    get_solver (n := 4) (fun _ => 1) (fun _ => 1) false Aasym
        (fun _ => 0) ⟨"AUTO", "NONE", 100, 0, 3⟩ =
      .bicgstab Aasym (fun _ => 0)
        (derive_precond (fun _ => 1) false Aasym (fun _ => 0) .bicgstab
          ⟨"AUTO", "NONE", 100, 0, 3⟩) 100 0 := by
  have hsym : Aspd = Aspd.transpose := by
    funext i j
    fin_cases i <;> fin_cases j <;> rfl
  have hnot : ¬ (allclose Aasym Aasym.transpose = true ∧ (0 : ℚ) < 1) := by
    intro h
    have := h.1
    rw [allclose, decide_eq_true_iff] at this
    have h01 := this 0 1
    norm_num [Aasym, Matrix.transpose] at h01
  exact ⟨⟨rfl, hsym, one_pos, hnot⟩,
    (claim_C5_auto_routing 4 (fun _ => 1) (fun _ => 1) false (fun _ => 0)
      ⟨"AUTO", "NONE", 100, 0, 3⟩ rfl).1 Aspd hsym one_pos,
    (claim_C5_auto_routing 4 (fun _ => 1) (fun _ => 1) false (fun _ => 0)
      ⟨"AUTO", "NONE", 100, 0, 3⟩ rfl).2 Aasym hnot⟩

/-! ## `sparse_mask` (`src/utils/math/sparse_ops.py`) -/

/-- Boolean-mask lookup `mask[i]` (out-of-range reads as `False`). -/
def maskGet (m : List Bool) (i : ℕ) : Bool := m.getD i false

/-- `mask.sum().item()`: the number of `True` entries. -/
def popcount (m : List Bool) : ℕ := (m.filter (fun b => b)).length

/-- The compacted new index of position `r`: the number of `True` entries
before `r` (`remap[row_mask] = torch.arange(...)` evaluated at `r`). -/
def maskRank (m : List Bool) (r : ℕ) : ℕ :=
  ((m.take r).filter (fun b => b)).length

/-- `torch.nonzero(mask).flatten()`: the positions of the `True` entries in
increasing order. -/
def trueIndices : List Bool → List ℕ
  | [] => []
  | b :: t => (if b then [0] else []) ++ (trueIndices t).map (fun x => x + 1)

/-- `sparse_mask(x, row_mask, col_mask)`: keep only the COO triples whose
row and column are both selected, remap the kept indices to the compacted
`0..k-1` range, and shrink the shape to `(Σ row_mask, Σ col_mask)`. -/
def sparse_mask (x : SparseCOO) (rm cm : List Bool) : SparseCOO :=
  ⟨popcount rm, popcount cm,
   (x.entries.filter (fun e => maskGet rm e.1 && maskGet cm e.2.1)).map
     (fun e => (maskRank rm e.1, maskRank cm e.2.1, e.2.2))⟩

theorem popcount_cons_true (t : List Bool) :
    popcount (true :: t) = popcount t + 1 := by
  simp [popcount, List.filter]

theorem popcount_cons_false (t : List Bool) :
    popcount (false :: t) = popcount t := by
  simp [popcount, List.filter]

theorem maskRank_cons_zero (b : Bool) (t : List Bool) :
    maskRank (b :: t) 0 = 0 := rfl

theorem maskRank_cons_succ_true (t : List Bool) (r : ℕ) :
    maskRank (true :: t) (r + 1) = maskRank t r + 1 := by
  simp [maskRank, List.filter]

theorem maskRank_cons_succ_false (t : List Bool) (r : ℕ) :
    maskRank (false :: t) (r + 1) = maskRank t r := by
  simp [maskRank, List.filter]

theorem getD_map_succ (l : List ℕ) (i : ℕ) (h : i < l.length) :
    (l.map (fun x => x + 1)).getD i 0 = l.getD i 0 + 1 := by
  induction l generalizing i with
  | nil => simp at h
  | cons a t ih =>
      cases i with
      | zero => simp [List.getD]
      | succ j =>
          simp only [List.map_cons, List.getD_cons_succ]
          exact ih j (by simpa using h)

theorem trueIndices_length (m : List Bool) :
    (trueIndices m).length = popcount m := by
  induction m with
  | nil => rfl
  | cons b t ih =>
      cases b
      · rw [popcount_cons_false]
        simpa [trueIndices] using ih
      · rw [popcount_cons_true]
        simp only [trueIndices, if_pos, List.singleton_append,
          List.length_cons, List.length_map]
        omega

/-- Every selected new index points back to a `True` position in range. -/
theorem trueIndices_spec (m : List Bool) (i : ℕ) (h : i < popcount m) :
    maskGet m ((trueIndices m).getD i 0) = true ∧
    (trueIndices m).getD i 0 < m.length := by
  induction m generalizing i with
  | nil => simp [popcount] at h
  | cons b t ih =>
      cases b with
      | true =>
          cases i with
          | zero => exact ⟨rfl, Nat.succ_pos _⟩
          | succ j =>
              rw [popcount_cons_true] at h
              have hj : j < popcount t := by omega
              have hjl : j < (trueIndices t).length := by
                rw [trueIndices_length]; exact hj
              have : (trueIndices (true :: t)).getD (j + 1) 0 =
                  (trueIndices t).getD j 0 + 1 := by
                simp only [trueIndices, if_pos, List.singleton_append,
                  List.getD_cons_succ]
                exact getD_map_succ _ j hjl
              rw [this]
              exact ⟨(ih j hj).1, by
                have := (ih j hj).2; simpa using Nat.succ_lt_succ this⟩
      | false =>
          rw [popcount_cons_false] at h
          have hi : i < popcount t := h
          have hil : i < (trueIndices t).length := by
            rw [trueIndices_length]; exact hi
          have : (trueIndices (false :: t)).getD i 0 =
              (trueIndices t).getD i 0 + 1 := by
            simp only [trueIndices, if_neg Bool.false_ne_true,
              List.nil_append]
            exact getD_map_succ _ i hil
          rw [this]
          exact ⟨(ih i hi).1, by
            have := (ih i hi).2; simpa using Nat.succ_lt_succ this⟩

/-- Compacting then reading back: the rank of the `i`-th `True` position is
`i`. -/
theorem maskRank_trueIndices (m : List Bool) (i : ℕ) (h : i < popcount m) :
    maskRank m ((trueIndices m).getD i 0) = i := by
  induction m generalizing i with
  | nil => simp [popcount] at h
  | cons b t ih =>
      cases b with
      | true =>
          cases i with
          | zero => rfl
          | succ j =>
              rw [popcount_cons_true] at h
              have hj : j < popcount t := by omega
              have hjl : j < (trueIndices t).length := by
                rw [trueIndices_length]; exact hj
              have hg : (trueIndices (true :: t)).getD (j + 1) 0 =
                  (trueIndices t).getD j 0 + 1 := by
                simp only [trueIndices, if_pos, List.singleton_append,
                  List.getD_cons_succ]
                exact getD_map_succ _ j hjl
              rw [hg, maskRank_cons_succ_true, ih j hj]
      | false =>
          rw [popcount_cons_false] at h
          have hi : i < popcount t := h
          have hil : i < (trueIndices t).length := by
            rw [trueIndices_length]; exact hi
          have hg : (trueIndices (false :: t)).getD i 0 =
              (trueIndices t).getD i 0 + 1 := by
            simp only [trueIndices, if_neg Bool.false_ne_true,
              List.nil_append]
            exact getD_map_succ _ i hil
          rw [hg, maskRank_cons_succ_false, ih i hi]

/-- A `True` position is recovered from its rank, and its rank is in the
compacted range. -/
theorem maskRank_inv (m : List Bool) (r : ℕ) (hr : r < m.length)
    (ht : maskGet m r = true) :
    (trueIndices m).getD (maskRank m r) 0 = r ∧
    maskRank m r < popcount m := by
  induction m generalizing r with
  | nil => simp at hr
  | cons b t ih =>
      cases r with
      | zero =>
          have hb : b = true := ht
          subst hb
          refine ⟨rfl, ?_⟩
          rw [maskRank_cons_zero, popcount_cons_true]
          omega
      | succ s =>
          have hs : s < t.length := by simpa using hr
          have hts : maskGet t s = true := ht
          obtain ⟨ihg, ihb⟩ := ih s hs hts
          cases b with
          | true =>
              rw [maskRank_cons_succ_true]
              have hl : maskRank t s < (trueIndices t).length := by
                rw [trueIndices_length]; exact ihb
              constructor
              · simp only [trueIndices, if_pos, List.singleton_append,
                  List.getD_cons_succ]
                rw [getD_map_succ _ _ hl, ihg]
              · rw [popcount_cons_true]; omega
          | false =>
              rw [maskRank_cons_succ_false]
              have hl : maskRank t s < (trueIndices t).length := by
                rw [trueIndices_length]; exact ihb
              constructor
              · simp only [trueIndices, if_neg Bool.false_ne_true,
                  List.nil_append]
                rw [getD_map_succ _ _ hl, ihg]
              · rw [popcount_cons_false]; exact ihb

/-- Dense reading of the masked entry list equals the dense reading of the
original list at the selected original indices. -/
theorem entryVal_sparse_mask (es : List (ℕ × ℕ × ℚ)) (rm cm : List Bool)
    (i j : ℕ) (hi : i < popcount rm) (hj : j < popcount cm)
    (hb : ∀ e ∈ es, e.1 < rm.length ∧ e.2.1 < cm.length) :
    entryVal ((es.filter (fun e => maskGet rm e.1 && maskGet cm e.2.1)).map
      (fun e => (maskRank rm e.1, maskRank cm e.2.1, e.2.2))) i j =
    entryVal es ((trueIndices rm).getD i 0) ((trueIndices cm).getD j 0) := by
  induction es with
  | nil => rfl
  | cons e es ih =>
      have hbe := hb e (List.mem_cons_self e es)
      have ihs := ih (fun x hx => hb x (List.mem_cons_of_mem e hx))
      by_cases hkeep : (maskGet rm e.1 && maskGet cm e.2.1) = true
      · rw [List.filter_cons, if_pos hkeep, List.map_cons, entryVal_cons,
          entryVal_cons, ihs]
        congr 1
        have hiff : (maskRank rm e.1 = i ∧ maskRank cm e.2.1 = j) ↔
            (e.1 = (trueIndices rm).getD i 0 ∧
             e.2.1 = (trueIndices cm).getD j 0) := by
          have hkr : maskGet rm e.1 = true := by
            have := hkeep
            rw [Bool.and_eq_true] at this
            exact this.1
          have hkc : maskGet cm e.2.1 = true := by
            have := hkeep
            rw [Bool.and_eq_true] at this
            exact this.2
          constructor
          · rintro ⟨h1, h2⟩
            obtain ⟨hr1, _⟩ := maskRank_inv rm e.1 hbe.1 hkr
            obtain ⟨hc1, _⟩ := maskRank_inv cm e.2.1 hbe.2 hkc
            rw [h1] at hr1
            rw [h2] at hc1
            exact ⟨hr1.symm, hc1.symm⟩
          · rintro ⟨h1, h2⟩
            rw [h1, h2]
            exact ⟨maskRank_trueIndices rm i hi,
              maskRank_trueIndices cm j hj⟩
        exact if_congr hiff rfl rfl
      · rw [List.filter_cons, if_neg hkeep, entryVal_cons, ihs]
        have hzero : ¬ (e.1 = (trueIndices rm).getD i 0 ∧
            e.2.1 = (trueIndices cm).getD j 0) := by
          rintro ⟨h1, h2⟩
          apply hkeep
          rw [Bool.and_eq_true]
          constructor
          · rw [h1]; exact (trueIndices_spec rm i hi).1
          · rw [h2]; exact (trueIndices_spec cm j hj).1
        rw [if_neg hzero]
        ring

/-- Claim C8: `sparse_mask(A, rowMask, colMask)` has shape
`(Σ rowMask, Σ colMask)`; its stored entries are exactly the kept originals
(one per original entry inside the mask — dropped, not zeroed-and-kept),
they all lie inside the compacted shape, and its dense reading equals dense
boolean indexing of the dense reading of `A`. -/
theorem claim_C8_sparse_mask (x : SparseCOO) (rm cm : List Bool)
    (hrm : rm.length = x.rows) (hcm : cm.length = x.cols)
    (hb : ∀ e ∈ x.entries, e.1 < x.rows ∧ e.2.1 < x.cols) :
    (sparse_mask x rm cm).rows = popcount rm ∧
    (sparse_mask x rm cm).cols = popcount cm ∧
    (sparse_mask x rm cm).entries.length =
      (x.entries.filter
        (fun e => maskGet rm e.1 && maskGet cm e.2.1)).length ∧
    (∀ e ∈ (sparse_mask x rm cm).entries,
      e.1 < popcount rm ∧ e.2.1 < popcount cm) ∧
    (∀ i j, i < popcount rm → j < popcount cm →
      (sparse_mask x rm cm).toDense i j =
        x.toDense ((trueIndices rm).getD i 0)
          ((trueIndices cm).getD j 0)) := by
  have hb2 : ∀ e ∈ x.entries, e.1 < rm.length ∧ e.2.1 < cm.length := by
    intro e he
    rw [hrm, hcm]
    exact hb e he
  refine ⟨rfl, rfl, List.length_map _ _, ?_, ?_⟩
  · intro e he
    simp only [sparse_mask, List.mem_map, List.mem_filter] at he
    obtain ⟨a, ⟨ha, hak⟩, rfl⟩ := he
    have hba := hb2 a ha
    rw [Bool.and_eq_true] at hak
    have hkr : maskGet rm a.1 = true := hak.1
    have hkc : maskGet cm a.2.1 = true := hak.2
    exact ⟨(maskRank_inv rm a.1 hba.1 hkr).2,
      (maskRank_inv cm a.2.1 hba.2 hkc).2⟩
  · intro i j hi hj
    exact entryVal_sparse_mask x.entries rm cm i j hi hj hb2

/-- Witness for C8 on a concrete 3×3 sparse matrix and mask pair. -/
theorem claim_C8_witness :
    (([true, false, true] : List Bool).length = 3 ∧
     ([false, true, true] : List Bool).length = 3 ∧
     (∀ e ∈ ([(0, 0, 5), (1, 2, 7), (2, 1, 9), (2, 2, 4)] :
        List (ℕ × ℕ × ℚ)), e.1 < 3 ∧ e.2.1 < 3)) ∧
    ((sparse_mask ⟨3, 3, [(0, 0, 5), (1, 2, 7), (2, 1, 9), (2, 2, 4)]⟩
        [true, false, true] [false, true, true]).rows =
      popcount [true, false, true] ∧
     (sparse_mask ⟨3, 3, [(0, 0, 5), (1, 2, 7), (2, 1, 9), (2, 2, 4)]⟩
        [true, false, true] [false, true, true]).cols =
      popcount [false, true, true] ∧
     (sparse_mask ⟨3, 3, [(0, 0, 5), (1, 2, 7), (2, 1, 9), (2, 2, 4)]⟩
        [true, false, true] [false, true, true]).entries.length =
      (([(0, 0, 5), (1, 2, 7), (2, 1, 9), (2, 2, 4)] :
         List (ℕ × ℕ × ℚ)).filter
        (fun e => maskGet [true, false, true] e.1 &&
          maskGet [false, true, true] e.2.1)).length ∧
     (∀ e ∈ (sparse_mask ⟨3, 3,
          [(0, 0, 5), (1, 2, 7), (2, 1, 9), (2, 2, 4)]⟩
        [true, false, true] [false, true, true]).entries,
       e.1 < popcount [true, false, true] ∧
       e.2.1 < popcount [false, true, true]) ∧
     (∀ i j, i < popcount [true, false, true] →
       j < popcount [false, true, true] →
       (sparse_mask ⟨3, 3, [(0, 0, 5), (1, 2, 7), (2, 1, 9), (2, 2, 4)]⟩
          [true, false, true] [false, true, true]).toDense i j =
         SparseCOO.toDense ⟨3, 3,
             [(0, 0, 5), (1, 2, 7), (2, 1, 9), (2, 2, 4)]⟩
           ((trueIndices [true, false, true]).getD i 0)
           ((trueIndices [false, true, true]).getD j 0))) :=
  ⟨⟨rfl, rfl, by decide⟩,
   claim_C8_sparse_mask ⟨3, 3, [(0, 0, 5), (1, 2, 7), (2, 1, 9), (2, 2, 4)]⟩
     [true, false, true] [false, true, true] rfl rfl (by decide)⟩

/-! ## Remaining `sparse_ops` primitives used by `problems.py` -/

/-- `sparse_eye(size)`: the sparse identity. -/
def sparse_eye (size : ℕ) : SparseCOO :=
  ⟨size, size, (List.range size).map (fun i => (i, i, 1))⟩

/-- `sparse_kron(A, B)`: COO Kronecker product, indices
`iA * nB + iB, jA * mB + jB` and values `vA * vB`. -/
def sparse_kron (A B : SparseCOO) : SparseCOO :=
  ⟨A.rows * B.rows, A.cols * B.cols,
   A.entries.flatMap (fun a => B.entries.map
     (fun b => (a.1 * B.rows + b.1, a.2.1 * B.cols + b.2.1,
                a.2.2 * b.2.2)))⟩

/-- `M.transpose(0, 1)` on a COO tensor. -/
def SparseCOO.trans (A : SparseCOO) : SparseCOO :=
  ⟨A.cols, A.rows, A.entries.map (fun e => (e.2.1, e.1, e.2.2))⟩

/-- `torch.sparse.mm(A, B)` in COO form: every pair of entries with a
matching inner index contributes a product term (duplicates sum on
densification). -/
def spMM (A B : SparseCOO) : SparseCOO :=
  ⟨A.rows, B.cols,
   A.entries.flatMap (fun a => B.entries.filterMap
     (fun b => if a.2.1 = b.1 then some (a.1, b.2.1, a.2.2 * b.2.2)
               else none))⟩

/-! ## Problem assembly (`src/utils/math/problems.py`) -/

/-- Component `c` of a 3-vector (column `c` of a row of an `(n,3)`
tensor). -/
def vecComp (v : Vec3) (c : Fin 3) : ℚ :=
  if c = 0 then v.x else if c = 1 then v.y else v.z

/-- Write component `c` of a 3-vector. -/
def setComp (v : Vec3) (c : Fin 3) (q : ℚ) : Vec3 :=
  if c = 0 then ⟨q, v.y, v.z⟩ else if c = 1 then ⟨v.x, q, v.z⟩
  else ⟨v.x, v.y, q⟩

/-- The boolean `not_fixed` array of length `n`. -/
def notFixedMask (n : ℕ) (fixed : List ℕ) : List Bool :=
  (List.range n).map (fun v => ! fixed.contains v)

/-- The boolean `is_fixed` array of length `n`. -/
def isFixedMask (n : ℕ) (fixed : List ℕ) : List Bool :=
  (List.range n).map (fun v => fixed.contains v)

/-- `free_idx = torch.where(not_fixed)[0]`. -/
def freeIdxList (n : ℕ) (fixed : List ℕ) : List ℕ :=
  (List.range n).filter (fun v => ! fixed.contains v)

/-- The position of free vertex `v` among the free indices (its row in the
compacted free system). -/
def freeRank (fixed : List ℕ) (v : ℕ) : ℕ :=
  ((List.range v).filter (fun u => ! fixed.contains u)).length

/-! ### Flation (`solve_flation`) -/

/-- Component `c ∈ {0,1,2}` of normal `v` (for a flattened `3n` index). -/
def NcompNat (N : ℕ → Vec3) (v c : ℕ) : ℚ :=
  if c = 0 then (N v).x else if c = 1 then (N v).y else (N v).z

/-- The flation right-hand side: `b[3v + c] = beta_normal[v] *
target_offset[v] * N[v, c]`. -/
def flationRhs (N : ℕ → Vec3) (beta_normal target_offset : ℕ → ℚ) :
    ℕ → ℚ :=
  fun idx => beta_normal (idx / 3) * target_offset (idx / 3) *
    NcompNat N (idx / 3) (idx % 3)

/-- One entry of the per-vertex anisotropic block
`Q_v = alpha_v (I - n nᵀ) + beta_v (n nᵀ)` at block position `(a, b)`. -/
def flationQval (N : ℕ → Vec3) (alpha_tangent beta_normal : ℕ → ℚ)
    (v a b : ℕ) : ℚ :=
  alpha_tangent v * ((if a = b then 1 else 0) -
      NcompNat N v a * NcompNat N v b) +
    beta_normal v * (NcompNat N v a * NcompNat N v b)

/-- The block-diagonal COO triples of `Q` (`3n × 3n`). -/
def flationQEntries (n : ℕ) (N : ℕ → Vec3)
    (alpha_tangent beta_normal : ℕ → ℚ) : List (ℕ × ℕ × ℚ) :=
  (List.range n).flatMap (fun v =>
    (List.range 3).flatMap (fun a =>
      (List.range 3).map (fun b =>
        (3 * v + a, 3 * v + b,
         flationQval N alpha_tangent beta_normal v a b))))

/-- The weighted Laplacian part of the flation system:
`kron(LᵀL, I3)` with each entry `(i,j)` scaled by
`lambda_lap[i/3] + lambda_lap[j/3]` (the `repeat_interleave(3)` read). -/
def flationLapPart (n : ℕ) (msqrt : ℚ → ℚ) (eps : ℚ) (V : ℕ → Vec3)
    (F : List (ℕ × ℕ × ℕ)) (lambda_lap : ℕ → ℚ) : SparseCOO :=
  let L := sparse_cotan_laplacian n msqrt eps V F
  let L2 := spMM L.trans L
  let A3_lap := sparse_kron L2 (sparse_eye 3)
  ⟨A3_lap.rows, A3_lap.cols,
   A3_lap.entries.map (fun e =>
     (e.1, e.2.1, (lambda_lap (e.1 / 3) + lambda_lap (e.2.1 / 3)) * e.2.2))⟩

/-- The flation system matrix `A3 = weighted kron part + Q`. -/
def flationA3 (n : ℕ) (msqrt : ℚ → ℚ) (eps : ℚ) (V : ℕ → Vec3)
    (F : List (ℕ × ℕ × ℕ)) (N : ℕ → Vec3)
    (lambda_lap alpha_tangent beta_normal : ℕ → ℚ) : SparseCOO :=
  ⟨3 * n, 3 * n,
   (flationLapPart n msqrt eps V F lambda_lap).entries ++
     flationQEntries n N alpha_tangent beta_normal⟩

/-- The interleaved free mask `not_fixed.repeat_interleave(3)`. -/
def flationMask (n : ℕ) (fixed : List ℕ) : List Bool :=
  (List.range (3 * n)).map (fun idx => ! fixed.contains (idx / 3))

/-- `solve_flation`: assemble the `3n × 3n` anisotropic system, mask out
the fixed degrees of freedom, hand the free system to the solver manager
(modelled by the oracle `solveFn`, standing for
`Solver().solve(A3_free, b_free, config).result`), scatter the solved
displacement back to the free vertices and add it to `V`. -/
def solve_flation (n : ℕ) (msqrt : ℚ → ℚ) (eps : ℚ) (V : ℕ → Vec3)
    (F : List (ℕ × ℕ × ℕ)) (N : ℕ → Vec3)
    (target_offset : ℕ → ℚ) (fixed : List ℕ)
    (lambda_lap beta_normal alpha_tangent : ℕ → ℚ)
    (solveFn : SparseCOO → List ℚ → List ℚ) : ℕ → Vec3 :=
  if freeIdxList n fixed = [] then V
  else
    let A3 := flationA3 n msqrt eps V F N lambda_lap alpha_tangent
      beta_normal
    let b := flationRhs N beta_normal target_offset
    let mask := flationMask n fixed
    let A3_free := sparse_mask A3 mask mask
    let b_free := ((List.range (3 * n)).filter
      (fun idx => ! fixed.contains (idx / 3))).map b
    let d_free := solveFn A3_free b_free
    fun v =>
      if v < n ∧ fixed.contains v = false then
        ⟨(V v).x + d_free.getD (3 * freeRank fixed v) 0,
         (V v).y + d_free.getD (3 * freeRank fixed v + 1) 0,
         (V v).z + d_free.getD (3 * freeRank fixed v + 2) 0⟩
      else V v

/-- With `beta_normal ≡ 0` the flation right-hand side vanishes for every
target offset. -/
theorem flationRhs_beta_zero (N : ℕ → Vec3) (t : ℕ → ℚ) :
    flationRhs N (fun _ => 0) t = fun _ => 0 := by
  funext idx
  simp [flationRhs]

/-- Claim C7: on every mesh with at least one free vertex,
`solve_flation` with `alpha_tangent` and `beta_normal` identically zero
returns positions independent of the `target_offset` field. -/
theorem claim_C7_flation_offset_independence (n : ℕ) (msqrt : ℚ → ℚ)
    (eps : ℚ) (V : ℕ → Vec3) (F : List (ℕ × ℕ × ℕ)) (N : ℕ → Vec3)
    (t1 t2 : ℕ → ℚ) (fixed : List ℕ) (lambda_lap : ℕ → ℚ)
    (solveFn : SparseCOO → List ℚ → List ℚ)
    (hfree : freeIdxList n fixed ≠ []) :
    solve_flation n msqrt eps V F N t1 fixed lambda_lap (fun _ => 0)
      (fun _ => 0) solveFn =
    solve_flation n msqrt eps V F N t2 fixed lambda_lap (fun _ => 0)
      (fun _ => 0) solveFn := by
  unfold solve_flation
  rw [flationRhs_beta_zero N t1, flationRhs_beta_zero N t2]

/-- Witness for C7 on a one-vertex mesh with distinct target offsets. -/
theorem claim_C7_witness :
    freeIdxList 1 [] ≠ [] ∧
    solve_flation 1 ratSqrt (1 / 100000000) (fun _ => ⟨0, 0, 0⟩) []
        (fun _ => ⟨1, 0, 0⟩) (fun _ => 5) [] (fun _ => 1) (fun _ => 0)
        (fun _ => 0) (fun _ b => b) =
      solve_flation 1 ratSqrt (1 / 100000000) (fun _ => ⟨0, 0, 0⟩) []
        (fun _ => ⟨1, 0, 0⟩) (fun _ => 7) [] (fun _ => 1) (fun _ => 0)
        (fun _ => 0) (fun _ b => b) :=
  ⟨by decide,
   claim_C7_flation_offset_independence 1 ratSqrt (1 / 100000000)
     (fun _ => ⟨0, 0, 0⟩) [] (fun _ => ⟨1, 0, 0⟩) (fun _ => 5) (fun _ => 7)
     [] (fun _ => 1) (fun _ b => b) (by decide)⟩

/-! ### Minimal surface (`solve_minimal_surface`) -/

/-- The resolved `fixed_pos` (defaults to `V[fixed_idx]`). -/
def msXB (V : ℕ → Vec3) (fixed : List ℕ) (fp : Option (ℕ → Vec3)) :
    ℕ → Vec3 :=
  fp.getD (fun r => V (fixed.getD r 0))

/-- The free/free sub-block `L_II`. -/
def msLII (n : ℕ) (msqrt : ℚ → ℚ) (eps : ℚ) (V : ℕ → Vec3)
    (F : List (ℕ × ℕ × ℕ)) (fixed : List ℕ) : SparseCOO :=
  sparse_mask (sparse_cotan_laplacian n msqrt eps V F)
    (notFixedMask n fixed) (notFixedMask n fixed)

/-- The free/fixed sub-block `L_IB`. -/
def msLIB (n : ℕ) (msqrt : ℚ → ℚ) (eps : ℚ) (V : ℕ → Vec3)
    (F : List (ℕ × ℕ × ℕ)) (fixed : List ℕ) : SparseCOO :=
  sparse_mask (sparse_cotan_laplacian n msqrt eps V F)
    (notFixedMask n fixed) (isFixedMask n fixed)

/-- Column `c` of `rhs = torch.sparse.mm(-L_IB, X_B)` as a list over the
free rows. -/
def msRhs (n : ℕ) (msqrt : ℚ → ℚ) (eps : ℚ) (V : ℕ → Vec3)
    (F : List (ℕ × ℕ × ℕ)) (fixed : List ℕ) (XB : ℕ → Vec3) (c : Fin 3) :
    List ℚ :=
  (List.range (popcount (notFixedMask n fixed))).map (fun r =>
    (msLIB n msqrt eps V F fixed).entries.foldr
      (fun e acc =>
        (if e.1 = r then -e.2.2 * vecComp (XB e.2.1) c else 0) + acc) 0)

/-- `V_new[free_idx, dim] = x_free`: write the solved axis values into the
free rows of the buffer, in place. -/
def msWrite (fixed : List ℕ) (n : ℕ) (buf : ℕ → Vec3) (c : Fin 3)
    (xs : List ℚ) : ℕ → Vec3 :=
  fun v =>
    if v < n ∧ fixed.contains v = false then
      setComp (buf v) c (xs.getD (freeRank fixed v) 0)
    else buf v

/-- `V_new[fixed_idx] = fixed_pos`: sequential in-place writes of the fixed
rows (`r` is the current position in `fixed_idx`). -/
def msWriteFixed (XB : ℕ → Vec3) : List ℕ → ℕ → (ℕ → Vec3) → (ℕ → Vec3)
  | [], _, buf => buf
  | f :: rest, r, buf =>
      msWriteFixed XB rest (r + 1) (fun v => if v = f then XB r else buf v)

/-- The per-axis solve loop of `solve_minimal_surface`: for each axis ask
the solver manager (the oracle `solveFn`, standing for
`Solver().solve(L_II, b, config)`; `.error e` models a `Result` whose
`err` is an `Exception`, which the loop re-raises); on success write the
axis into the buffer in place and continue. -/
def msSolveLoop (solveFn : SparseCOO → List ℚ → Except PyErr (List ℚ))
    (LII : SparseCOO) (rhs : Fin 3 → List ℚ) (fixed : List ℕ) (n : ℕ) :
    List (Fin 3) → (ℕ → Vec3) → (ℕ → Vec3) × Except PyErr Unit
  | [], buf => (buf, .ok ())
  | c :: rest, buf =>
      match solveFn LII (rhs c) with
      | .error e => (buf, .error e)
      | .ok xs =>
          msSolveLoop solveFn LII rhs fixed n rest (msWrite fixed n buf c xs)

/-- What `solve_minimal_surface` hands back: the caller's own tensor
(`return V_new` where `V_new = V`) or a fresh clone (`return V.clone()`). -/
inductive MinSurfRet where
  | sameObject
  | freshClone (content : ℕ → Vec3)

/-- `solve_minimal_surface`: build `L`, partition into free/fixed, solve
the three axes sequentially, writing each solved axis **into the caller's
vertex tensor**, then overwrite the fixed rows with their targets.  The
first component of the output is the final content of the caller's input
tensor `V` (which the function mutates); the second is the outcome: the
error re-raised from a failed per-axis solve, or the returned tensor —
`V` itself when a solve ran, a fresh clone in the no-free-vertex case. -/
def solve_minimal_surface (n : ℕ) (msqrt : ℚ → ℚ) (eps : ℚ)
    (V : ℕ → Vec3) (F : List (ℕ × ℕ × ℕ)) (fixed : List ℕ)
    (fp : Option (ℕ → Vec3))
    (solveFn : SparseCOO → List ℚ → Except PyErr (List ℚ)) :
    (ℕ → Vec3) × Except PyErr MinSurfRet :=
  let XB := msXB V fixed fp
  if freeIdxList n fixed = [] then (V, .ok (.freshClone V))
  else
    let out := msSolveLoop solveFn (msLII n msqrt eps V F fixed)
      (msRhs n msqrt eps V F fixed XB) fixed n [0, 1, 2] V
    match out.2 with
    | .error e => (out.1, .error e)
    | .ok _ => (msWriteFixed XB fixed 0 out.1, .ok .sameObject)

/-- Claim C10: `solve_minimal_surface` writes the solved coordinates
directly into the caller's vertex tensor.  (a) With at least one free
vertex and all three axis solves succeeding, the returned tensor is the
input object itself (`sameObject`) and the caller's tensor now holds the
solved free rows and the fixed targets.  (b) If the axis-1 solve fails
after axis 0 succeeded, the error is re-raised and the caller's tensor has
already been overwritten on axis 0 — no atomicity.  (c) Only with zero
free vertices is the caller's tensor left untouched and a fresh clone
returned. -/
theorem claim_C10_minsurf_in_place (n : ℕ) (msqrt : ℚ → ℚ) (eps : ℚ)
    (V : ℕ → Vec3) (F : List (ℕ × ℕ × ℕ)) (fixed : List ℕ)
    (fp : Option (ℕ → Vec3))
    (solveFn : SparseCOO → List ℚ → Except PyErr (List ℚ)) :
    (∀ x0 x1 x2 : List ℚ,
      freeIdxList n fixed ≠ [] →
      solveFn (msLII n msqrt eps V F fixed)
        (msRhs n msqrt eps V F fixed (msXB V fixed fp) 0) = .ok x0 →
      solveFn (msLII n msqrt eps V F fixed)
        (msRhs n msqrt eps V F fixed (msXB V fixed fp) 1) = .ok x1 →
      solveFn (msLII n msqrt eps V F fixed)
        (msRhs n msqrt eps V F fixed (msXB V fixed fp) 2) = .ok x2 →
      solve_minimal_surface n msqrt eps V F fixed fp solveFn =
        (msWriteFixed (msXB V fixed fp) fixed 0
          (msWrite fixed n
            (msWrite fixed n (msWrite fixed n V 0 x0) 1 x1) 2 x2),
         .ok .sameObject)) ∧
    (∀ (x0 : List ℚ) (e : PyErr),
      freeIdxList n fixed ≠ [] →
      solveFn (msLII n msqrt eps V F fixed)
        (msRhs n msqrt eps V F fixed (msXB V fixed fp) 0) = .ok x0 →
      solveFn (msLII n msqrt eps V F fixed)
        (msRhs n msqrt eps V F fixed (msXB V fixed fp) 1) = .error e →
      solve_minimal_surface n msqrt eps V F fixed fp solveFn =
        (msWrite fixed n V 0 x0, .error e)) ∧
    (freeIdxList n fixed = [] →
      solve_minimal_surface n msqrt eps V F fixed fp solveFn =
        (V, .ok (.freshClone V))) := by
  refine ⟨?_, ?_, ?_⟩
  · intro x0 x1 x2 hfree h0 h1 h2
    unfold solve_minimal_surface
    rw [if_neg hfree]
    simp only [msSolveLoop, h0, h1, h2]
  · intro x0 e hfree h0 h1
    unfold solve_minimal_surface
    rw [if_neg hfree]
    simp only [msSolveLoop, h0, h1]
  · intro hfree
    unfold solve_minimal_surface
    rw [if_pos hfree]

/-- Vertices of the C10 witness triangle. -/
def msV3 : ℕ → Vec3 :=
  fun v => if v = 0 then ⟨0, 0, 0⟩ else if v = 1 then ⟨1, 0, 0⟩
           else ⟨0, 1, 0⟩

/-- Explicit fixed positions of the C10 witness. -/
def msXB3 : ℕ → Vec3 := fun _ => ⟨1, 2, 3⟩

/-- Solver-manager oracle that succeeds on every axis. -/
def solveFnOk : SparseCOO → List ℚ → Except PyErr (List ℚ) :=
  fun _ _ => .ok [5, 7]

/-- Solver-manager oracle that fails exactly on the axis-1 right-hand side
of the C10 witness system. -/
def solveFnErr : SparseCOO → List ℚ → Except PyErr (List ℚ) :=
  fun _ b =>
    if b = msRhs 3 ratSqrt (1 / 100000000) msV3 [(0, 1, 2)] [2] msXB3 1 then
      .error .runtimeError
    else .ok [5, 7]

set_option maxRecDepth 2000 in
/-- Witness for C10: on a one-triangle mesh with vertex 2 fixed, (a) a
fully successful solve returns `sameObject` with the axes written in
place, (b) an axis-1 failure leaves axis 0 already overwritten and
re-raises, (c) with every vertex fixed the input is returned as an
untouched fresh clone. -/
theorem claim_C10_witness :
    (freeIdxList 3 [2] ≠ [] ∧
     solveFnErr (msLII 3 ratSqrt (1 / 100000000) msV3 [(0, 1, 2)] [2])
       (msRhs 3 ratSqrt (1 / 100000000) msV3 [(0, 1, 2)] [2] msXB3 0) =
       .ok [5, 7] ∧
     solveFnErr (msLII 3 ratSqrt (1 / 100000000) msV3 [(0, 1, 2)] [2])
       (msRhs 3 ratSqrt (1 / 100000000) msV3 [(0, 1, 2)] [2] msXB3 1) =
       .error .runtimeError ∧
     freeIdxList 3 [0, 1, 2] = []) ∧
    solve_minimal_surface 3 ratSqrt (1 / 100000000) msV3 [(0, 1, 2)] [2]
        (some msXB3) solveFnOk =
      (msWriteFixed msXB3 [2] 0
        (msWrite [2] 3
          (msWrite [2] 3 (msWrite [2] 3 msV3 0 [5, 7]) 1 [5, 7]) 2
          [5, 7]),
       .ok .sameObject) ∧
    solve_minimal_surface 3 ratSqrt (1 / 100000000) msV3 [(0, 1, 2)] [2]
        (some msXB3) solveFnErr =
      (msWrite [2] 3 msV3 0 [5, 7], .error .runtimeError) ∧
    solve_minimal_surface 3 ratSqrt (1 / 100000000) msV3 [(0, 1, 2)]
        [0, 1, 2] (some msXB3) solveFnErr =
      (msV3, .ok (.freshClone msV3)) := by
  have hfree : freeIdxList 3 [2] ≠ [] := by decide
  have hrhs01 : msRhs 3 ratSqrt (1 / 100000000) msV3 [(0, 1, 2)] [2]
      msXB3 0 ≠
      msRhs 3 ratSqrt (1 / 100000000) msV3 [(0, 1, 2)] [2] msXB3 1 := by
    with_unfolding_all decide
  have herr0 : solveFnErr
      (msLII 3 ratSqrt (1 / 100000000) msV3 [(0, 1, 2)] [2])
      (msRhs 3 ratSqrt (1 / 100000000) msV3 [(0, 1, 2)] [2] msXB3 0) =
      .ok [5, 7] := by
    unfold solveFnErr
    rw [if_neg hrhs01]
  have herr1 : solveFnErr
      (msLII 3 ratSqrt (1 / 100000000) msV3 [(0, 1, 2)] [2])
      (msRhs 3 ratSqrt (1 / 100000000) msV3 [(0, 1, 2)] [2] msXB3 1) =
      .error .runtimeError := by
    unfold solveFnErr
    rw [if_pos rfl]
  have hxb : msXB msV3 [2] (some msXB3) = msXB3 := rfl
  refine ⟨⟨hfree, herr0, herr1, by decide⟩, ?_, ?_, ?_⟩
  · exact (claim_C10_minsurf_in_place 3 ratSqrt (1 / 100000000) msV3
      [(0, 1, 2)] [2] (some msXB3) solveFnOk).1 [5, 7] [5, 7] [5, 7]
      hfree rfl rfl rfl
  · exact (claim_C10_minsurf_in_place 3 ratSqrt (1 / 100000000) msV3
      [(0, 1, 2)] [2] (some msXB3) solveFnErr).2.1 [5, 7] .runtimeError
      hfree (hxb ▸ herr0) (hxb ▸ herr1)
  · exact (claim_C10_minsurf_in_place 3 ratSqrt (1 / 100000000) msV3
      [(0, 1, 2)] [0, 1, 2] (some msXB3) solveFnErr).2.2 (by decide)

/-! ## Singleton machinery (`src/utils/singleton.py`, `manager.Solver`) -/

/-- The `Singleton` subclasses in the source: `Solver` (the solver
manager, which does **not** override the abstract `initialize`) and
`CUDAHelper` (which does). -/
inductive PyClass where
  | solverManager
  | cudaHelper
deriving DecidableEq

/-- Whether the class overrides `Singleton`'s abstract `initialize`. -/
def implementsInitialize : PyClass → Bool
  | .solverManager => false
  | .cudaHelper => true

/-- Python object identity, as an allocation index. -/
abbrev ObjId := ℕ

/-- The process-wide interpreter state relevant to `Singleton.__new__`:
the class-level `_instances` cache and an allocation counter. -/
structure PyState where
  instances : List (PyClass × ObjId)
  next : ObjId
deriving DecidableEq

/-- The state at interpreter start: empty `_instances`. -/
def initState : PyState := ⟨[], 0⟩

/-- `cls in cls._instances` / `cls._instances[cls]`. -/
def lookupInstance (st : PyState) (cls : PyClass) : Option ObjId :=
  (st.instances.find? (fun p => p.1 = cls)).map (fun p => p.2)

/-- `Singleton.__new__`: return the cached instance when present;
otherwise `super().__new__(cls)` — which raises `TypeError` when the class
leaves `initialize` abstract — then `initialize` and cache the fresh
object. -/
def singletonNew (cls : PyClass) (st : PyState) :
    Except PyErr (ObjId × PyState) :=
  match lookupInstance st cls with
  | some oid => .ok (oid, st)
  | none =>
      if implementsInitialize cls = false then .error .typeError
      else .ok (st.next, ⟨(cls, st.next) :: st.instances, st.next + 1⟩)

/-- Two solve invocations each constructing the solver manager
(`Solver()` in `solve_minimal_surface` / `solve_flation`), started from a
fresh interpreter: the pair of object identities they would obtain. -/
def twoManagerNews : Except PyErr (ObjId × ObjId) := do
  let r1 ← singletonNew .solverManager initState
  let r2 ← singletonNew .solverManager r1.2
  pure (r1.1, r2.1)

/-- Counterexample to claim C9: operation invocations do **not** get fresh
unshared entities.  First, constructing the solver manager raises
`TypeError` (the `Solver` class never implements `Singleton`'s abstract
`initialize`), so two solve invocations obtain no pair of fresh manager
objects at all.  Second, for a concrete `Singleton` subclass the
class-level `_instances` cache is shared across invocations: a second
construction returns the **same** object (id `0`) and leaves the cache
unchanged, instead of creating a fresh instance. -/
theorem claim_C9_counterexample :
    twoManagerNews = .error .typeError ∧
    singletonNew .cudaHelper initState =
      .ok (0, ⟨[(.cudaHelper, 0)], 1⟩) ∧
    singletonNew .cudaHelper ⟨[(.cudaHelper, 0)], 1⟩ =
      .ok (0, ⟨[(.cudaHelper, 0)], 1⟩) :=
  ⟨rfl, rfl, rfl⟩

/-- Claim C9 as amended: the solver manager is a process-wide `Singleton`,
not a per-invocation fresh object.  Whenever `Solver` is not yet cached
(it never can be), constructing it raises `TypeError` because
`initialize` is left abstract; and for every class, once a construction
returns an instance, reconstructing in the resulting state returns the
same cached object with the state unchanged — the manager object and the
`_instances` map are shared across invocations. -/
theorem claim_C9_singleton_shared (cls : PyClass) (st : PyState)
    (oid : ObjId) (st' : PyState) :
    (lookupInstance st .solverManager = none →
      singletonNew .solverManager st = .error .typeError) ∧
    (singletonNew cls st = .ok (oid, st') →
      singletonNew cls st' = .ok (oid, st')) := by
  constructor
  · intro hnone
    unfold singletonNew
    rw [hnone]
    rfl
  · intro h
    unfold singletonNew at h ⊢
    cases hl : lookupInstance st cls with
    | some o =>
        rw [hl] at h
        simp only [Except.ok.injEq, Prod.mk.injEq] at h
        obtain ⟨h1, h2⟩ := h
        subst h1
        subst h2
        rw [hl]
    | none =>
        rw [hl] at h
        by_cases hi : implementsInitialize cls = false
        · rw [if_pos hi] at h
          exact absurd h (by simp)
        · rw [if_neg hi] at h
          simp only [Except.ok.injEq, Prod.mk.injEq] at h
          obtain ⟨h1, h2⟩ := h
          subst h1
          subst h2
          have hfound : lookupInstance
              ⟨(cls, st.next) :: st.instances, st.next + 1⟩ cls =
              some st.next := by
            simp [lookupInstance, List.find?]
          rw [hfound]

/-- Witness for the amended C9 at the concrete interpreter start state. -/
theorem claim_C9_witness :
    (lookupInstance initState .solverManager = none ∧
     singletonNew .cudaHelper initState =
       .ok (0, ⟨[(.cudaHelper, 0)], 1⟩)) ∧
    singletonNew .solverManager initState = .error .typeError ∧
    singletonNew .cudaHelper ⟨[(.cudaHelper, 0)], 1⟩ =
      .ok (0, ⟨[(.cudaHelper, 0)], 1⟩) :=
  ⟨⟨rfl, rfl⟩,
   (claim_C9_singleton_shared .cudaHelper initState 0
       ⟨[(.cudaHelper, 0)], 1⟩).1 rfl,
   (claim_C9_singleton_shared .cudaHelper initState 0
       ⟨[(.cudaHelper, 0)], 1⟩).2 rfl⟩

end SoapTools
